import Mathlib

/-!
Verification of the sonicd rust client core (src/lib/rust/src/io.rs and
src/lib/rust/src/model.rs).

Embedding conventions:
* Wire bytes are `List Nat` (each element a byte value).  JSON text is
  `List Char` (Unicode scalar values); the boundary between the two is an
  explicit executable UTF-8 encoder/decoder, mirroring the fact that the
  rust code serializes to a `String` and then takes its UTF-8 bytes.
* `serde_json`'s `Value` is embedded as `JVal`.  `Value::Object` is a
  `BTreeMap<String, Value>`; it is embedded as an association list kept
  sorted by `mapInsert` (insert-or-overwrite at the sorted position),
  the exact behaviour of `BTreeMap::insert`.  serde_json 0.x numbers are
  the three variants `I64(i64)`, `U64(u64)` and `F64(f64)`; `JVal`
  embeds the two integer variants (`i64` over `Int`, `u64` over `Nat`,
  with the 64-bit ranges imposed by the well-formedness predicate `wf`)
  and keeps them distinct, matching the derived variant-sensitive
  `PartialEq` (`I64(5) != U64(5)`), and the parser `parseNum` follows
  `parse_integer`: a nonnegative literal always becomes `u64`, a
  leading minus `i64`.  `F64` is not embedded: floats play no role in
  the protocol, and non-finite floats do not even survive serialization
  (`fmt_f64_or_null` renders NaN and the infinities as `null`).
* The kernel's `read(2)` is embedded as a trace of syscall outcomes
  (`SysRes`): each entry is what one call to `nix::unistd::read` would
  return (a chunk of delivered bytes, or an errno).  The file descriptor
  argument of the rust functions is subsumed by the trace; the caller's
  output buffer (always pre-zeroed by the callers in io.rs) is returned
  functionally.  A computation that exhausts its trace is modelled as
  `none` ("the program would keep issuing syscalls").
-/

/-! ## Keys and sorted maps (BTreeMap embedding) -/

abbrev Key := List Char

/-- Lexicographic strict order on keys, matching `Ord` on rust strings
(UTF-8 byte order coincides with scalar-value order). -/
def keyLt : Key → Key → Bool
  | [], [] => false
  | [], _ :: _ => true
  | _ :: _, [] => false
  | a :: as, b :: bs => a < b || (a = b && keyLt as bs)

/-- `BTreeMap::insert`: insert at the sorted position, overwriting an
equal key. -/
def mapInsert (k : Key) (v : α) : List (Key × α) → List (Key × α)
  | [] => [(k, v)]
  | (k', v') :: rest =>
    if keyLt k k' then (k, v) :: (k', v') :: rest
    else if k = k' then (k, v) :: rest
    else (k', v') :: mapInsert k v rest

/-- `BTreeMap::get`. -/
def mapGet (k : Key) : List (Key × α) → Option α
  | [] => none
  | (k', v') :: rest => if k = k' then some v' else mapGet k rest

/-! ## JSON values (`serde_json::Value` embedding) -/

inductive JVal : Type where
  | null : JVal
  | bool (b : Bool) : JVal
  | i64 (n : Int) : JVal
  | u64 (n : Nat) : JVal
  | str (s : List Char) : JVal
  | arr (xs : List JVal) : JVal
  | obj (kvs : List (Key × JVal)) : JVal

mutual
def jEq : JVal → JVal → Bool
  | .null, .null => true
  | .bool a, .bool b => a == b
  | .i64 a, .i64 b => a == b
  | .u64 a, .u64 b => a == b
  | .str a, .str b => a == b
  | .arr a, .arr b => jEqList a b
  | .obj a, .obj b => jEqObj a b
  | _, _ => false

def jEqList : List JVal → List JVal → Bool
  | [], [] => true
  | a :: as, b :: bs => jEq a b && jEqList as bs
  | _, _ => false

def jEqObj : List (Key × JVal) → List (Key × JVal) → Bool
  | [], [] => true
  | (ka, va) :: as, (kb, vb) :: bs => ka == kb && jEq va vb && jEqObj as bs
  | _, _ => false
end

mutual
theorem jEq_iff : ∀ a b, jEq a b = true ↔ a = b
  | .null, .null => by simp [jEq]
  | .bool a, .bool b => by simp [jEq]
  | .i64 a, .i64 b => by simp [jEq]
  | .u64 a, .u64 b => by simp [jEq]
  | .str a, .str b => by simp [jEq]
  | .arr a, .arr b => by
      simp only [jEq, jEqList_iff a b]
      constructor
      · intro h; rw [h]
      · intro h; injection h
  | .obj a, .obj b => by
      simp only [jEq, jEqObj_iff a b]
      constructor
      · intro h; rw [h]
      · intro h; injection h
  | .null, .bool _ => by simp [jEq]
  | .null, .i64 _ => by simp [jEq]
  | .null, .u64 _ => by simp [jEq]
  | .null, .str _ => by simp [jEq]
  | .null, .arr _ => by simp [jEq]
  | .null, .obj _ => by simp [jEq]
  | .bool _, .null => by simp [jEq]
  | .bool _, .i64 _ => by simp [jEq]
  | .bool _, .u64 _ => by simp [jEq]
  | .bool _, .str _ => by simp [jEq]
  | .bool _, .arr _ => by simp [jEq]
  | .bool _, .obj _ => by simp [jEq]
  | .i64 _, .null => by simp [jEq]
  | .i64 _, .bool _ => by simp [jEq]
  | .i64 _, .u64 _ => by simp [jEq]
  | .i64 _, .str _ => by simp [jEq]
  | .i64 _, .arr _ => by simp [jEq]
  | .i64 _, .obj _ => by simp [jEq]
  | .u64 _, .null => by simp [jEq]
  | .u64 _, .bool _ => by simp [jEq]
  | .u64 _, .i64 _ => by simp [jEq]
  | .u64 _, .str _ => by simp [jEq]
  | .u64 _, .arr _ => by simp [jEq]
  | .u64 _, .obj _ => by simp [jEq]
  | .str _, .null => by simp [jEq]
  | .str _, .bool _ => by simp [jEq]
  | .str _, .i64 _ => by simp [jEq]
  | .str _, .u64 _ => by simp [jEq]
  | .str _, .arr _ => by simp [jEq]
  | .str _, .obj _ => by simp [jEq]
  | .arr _, .null => by simp [jEq]
  | .arr _, .bool _ => by simp [jEq]
  | .arr _, .i64 _ => by simp [jEq]
  | .arr _, .u64 _ => by simp [jEq]
  | .arr _, .str _ => by simp [jEq]
  | .arr _, .obj _ => by simp [jEq]
  | .obj _, .null => by simp [jEq]
  | .obj _, .bool _ => by simp [jEq]
  | .obj _, .i64 _ => by simp [jEq]
  | .obj _, .u64 _ => by simp [jEq]
  | .obj _, .str _ => by simp [jEq]
  | .obj _, .arr _ => by simp [jEq]

theorem jEqList_iff : ∀ a b, jEqList a b = true ↔ a = b
  | [], [] => by simp [jEqList]
  | a :: as, b :: bs => by
      simp only [jEqList, Bool.and_eq_true, jEq_iff a b, jEqList_iff as bs]
      constructor
      · rintro ⟨h1, h2⟩; rw [h1, h2]
      · intro h; injection h with h1 h2; exact ⟨h1, h2⟩
  | [], _ :: _ => by simp [jEqList]
  | _ :: _, [] => by simp [jEqList]

theorem jEqObj_iff : ∀ a b, jEqObj a b = true ↔ a = b
  | [], [] => by simp [jEqObj]
  | (ka, va) :: as, (kb, vb) :: bs => by
      simp only [jEqObj, Bool.and_eq_true, jEq_iff va vb, jEqObj_iff as bs, beq_iff_eq]
      constructor
      · rintro ⟨⟨h1, h2⟩, h3⟩; rw [h1, h2, h3]
      · intro h
        injection h with h1 h2
        injection h1 with h1a h1b
        exact ⟨⟨h1a, h1b⟩, h2⟩
  | [], _ :: _ => by simp [jEqObj]
  | _ :: _, [] => by simp [jEqObj]
end

instance : DecidableEq JVal := fun a b => decidable_of_iff _ (jEq_iff a b)

/-! ## Decimal rendering of numbers (itoa behaviour used by serde_json) -/

def digitChar (n : Nat) : Char := Char.ofNat (48 + n)

def isDigit (c : Char) : Bool := 48 ≤ c.toNat && c.toNat ≤ 57

def natCharsAux : Nat → Nat → List Char
  | 0, _ => []
  | fuel + 1, n =>
    if n < 10 then [digitChar n]
    else natCharsAux fuel (n / 10) ++ [digitChar (n % 10)]

/-- Decimal digits of `n`, most significant first.  `n` itself is always
enough fuel because dividing by ten strictly shrinks the argument. -/
def natChars (n : Nat) : List Char := natCharsAux (n + 1) n

/-- Rendering of an integer, sign then decimal digits. -/
def intChars (n : Int) : List Char :=
  if n < 0 then '-' :: natChars (-n).toNat else natChars n.toNat

def digitsToNat (ds : List Char) : Nat :=
  ds.foldl (fun a c => a * 10 + (c.toNat - 48)) 0

/-! ## JSON string escaping (serde_json escape rules) -/

def hexDigitChar (n : Nat) : Char :=
  if n < 10 then Char.ofNat (48 + n) else Char.ofNat (87 + n)

def escapeChar (c : Char) : List Char :=
  if c = '"' then ['\\', '"']
  else if c = '\\' then ['\\', '\\']
  else if c = '\x08' then ['\\', 'b']
  else if c = '\x0c' then ['\\', 'f']
  else if c = '\n' then ['\\', 'n']
  else if c = '\r' then ['\\', 'r']
  else if c = '\t' then ['\\', 't']
  else if c.toNat < 0x20 then
    ['\\', 'u', '0', '0', hexDigitChar (c.toNat / 16), hexDigitChar (c.toNat % 16)]
  else [c]

/-- A JSON string literal: quote, escaped body, quote. -/
def renderStr (s : List Char) : List Char :=
  '"' :: s.flatMap escapeChar ++ ['"']

/-! ## JSON rendering (serde_json compact output, `to_string`) -/

mutual
def render : JVal → List Char
  | .null => "null".data
  | .bool true => "true".data
  | .bool false => "false".data
  | .i64 n => intChars n
  | .u64 n => natChars n
  | .str s => renderStr s
  | .arr xs => '[' :: renderElems xs ++ [']']
  | .obj kvs => '{' :: renderMembers kvs ++ ['}']

def renderElems : List JVal → List Char
  | [] => []
  | [v] => render v
  | v :: v' :: vs => render v ++ ',' :: renderElems (v' :: vs)

def renderMembers : List (Key × JVal) → List Char
  | [] => []
  | [(k, v)] => renderStr k ++ ':' :: render v
  | (k, v) :: m :: kvs => renderStr k ++ ':' :: render v ++ ',' :: renderMembers (m :: kvs)
end

/-! ## UTF-8 (boundary between JSON text and wire bytes) -/

def utf8EncodeChar (c : Char) : List Nat :=
  if c.toNat < 0x80 then [c.toNat]
  else if c.toNat < 0x800 then [0xC0 + c.toNat / 64, 0x80 + c.toNat % 64]
  else if c.toNat < 0x10000 then
    [0xE0 + c.toNat / 4096, 0x80 + c.toNat / 64 % 64, 0x80 + c.toNat % 64]
  else
    [0xF0 + c.toNat / 262144, 0x80 + c.toNat / 4096 % 64,
     0x80 + c.toNat / 64 % 64, 0x80 + c.toNat % 64]

def utf8Bytes (s : List Char) : List Nat := s.flatMap utf8EncodeChar

def isCont (b : Nat) : Bool := 0x80 ≤ b && b < 0xC0

def decodeTail1 (b : Nat) : List Nat → Option (Char × List Nat)
  | b1 :: bs =>
    if isCont b1 then some (Char.ofNat ((b - 0xC0) * 64 + (b1 - 0x80)), bs) else none
  | [] => none

def decodeTail2 (b : Nat) : List Nat → Option (Char × List Nat)
  | b1 :: b2 :: bs =>
    if isCont b1 && isCont b2 then
      some (Char.ofNat ((b - 0xE0) * 4096 + (b1 - 0x80) * 64 + (b2 - 0x80)), bs)
    else none
  | _ => none

def decodeTail3 (b : Nat) : List Nat → Option (Char × List Nat)
  | b1 :: b2 :: b3 :: bs =>
    if isCont b1 && isCont b2 && isCont b3 then
      some (Char.ofNat ((b - 0xF0) * 262144 + (b1 - 0x80) * 4096 +
        (b2 - 0x80) * 64 + (b3 - 0x80)), bs)
    else none
  | _ => none

/-- Decode one UTF-8 scalar value from the head of a byte list. -/
def utf8DecodeStep : List Nat → Option (Char × List Nat)
  | [] => none
  | b :: bs =>
    if b < 0x80 then some (Char.ofNat b, bs)
    else if b < 0xC0 then none
    else if b < 0xE0 then decodeTail1 b bs
    else if b < 0xF0 then decodeTail2 b bs
    else if b < 0xF8 then decodeTail3 b bs
    else none

def utf8DecodeLoop (fuel : Nat) (l : List Nat) : Option (List Char) :=
  match l with
  | [] => some []
  | b :: bs =>
    match fuel with
    | 0 => none
    | f + 1 =>
      match utf8DecodeStep (b :: bs) with
      | none => none
      | some (c, rest) => (utf8DecodeLoop f rest).map (fun cs => c :: cs)

/-- Full UTF-8 decoding; each step consumes at least one byte, so the
length of the input is always enough fuel. -/
def utf8Decode (l : List Nat) : Option (List Char) := utf8DecodeLoop l.length l

theorem utf8DecodeStep_encodeChar (c : Char) (bs : List Nat) :
    utf8DecodeStep (utf8EncodeChar c ++ bs) = some (c, bs) := by
  have hn : c.toNat < 1114112 := by
    rcases c.valid with h | h
    · simp only [Char.toNat]
      omega
    · simp only [Char.toNat]
      omega
  by_cases h1 : c.toNat < 0x80
  · rw [utf8EncodeChar, if_pos h1, List.cons_append, List.nil_append,
      utf8DecodeStep, if_pos h1, Char.ofNat_toNat]
  · by_cases h2 : c.toNat < 0x800
    · rw [utf8EncodeChar, if_neg h1, if_pos h2, List.cons_append, List.cons_append,
        List.nil_append, utf8DecodeStep,
        if_neg (by omega), if_neg (by omega), if_pos (by omega), decodeTail1,
        if_pos (by simp only [isCont, Bool.and_eq_true, decide_eq_true_eq]; omega)]
      have harith : (0xC0 + c.toNat / 64 - 0xC0) * 64 + (0x80 + c.toNat % 64 - 0x80)
          = c.toNat := by omega
      rw [harith, Char.ofNat_toNat]
    · by_cases h3 : c.toNat < 0x10000
      · rw [utf8EncodeChar, if_neg h1, if_neg h2, if_pos h3, List.cons_append,
          List.cons_append, List.cons_append, List.nil_append, utf8DecodeStep,
          if_neg (by omega), if_neg (by omega), if_neg (by omega), if_pos (by omega),
          decodeTail2,
          if_pos (by simp only [isCont, Bool.and_eq_true, decide_eq_true_eq]; omega)]
        have harith : (0xE0 + c.toNat / 4096 - 0xE0) * 4096 +
            (0x80 + c.toNat / 64 % 64 - 0x80) * 64 + (0x80 + c.toNat % 64 - 0x80)
            = c.toNat := by omega
        rw [harith, Char.ofNat_toNat]
      · rw [utf8EncodeChar, if_neg h1, if_neg h2, if_neg h3, List.cons_append,
          List.cons_append, List.cons_append, List.cons_append, List.nil_append,
          utf8DecodeStep, if_neg (by omega), if_neg (by omega), if_neg (by omega),
          if_neg (by omega), if_pos (by omega), decodeTail3,
          if_pos (by simp only [isCont, Bool.and_eq_true, decide_eq_true_eq]; omega)]
        have harith : (0xF0 + c.toNat / 262144 - 0xF0) * 262144 +
            (0x80 + c.toNat / 4096 % 64 - 0x80) * 4096 +
            (0x80 + c.toNat / 64 % 64 - 0x80) * 64 + (0x80 + c.toNat % 64 - 0x80)
            = c.toNat := by omega
        rw [harith, Char.ofNat_toNat]

theorem utf8EncodeChar_ne_nil (c : Char) : utf8EncodeChar c ≠ [] := by
  rw [utf8EncodeChar]
  split_ifs <;> simp

theorem utf8DecodeLoop_nil (fuel : Nat) : utf8DecodeLoop fuel [] = some [] := by
  cases fuel <;> rfl

theorem utf8DecodeLoop_utf8Bytes :
    ∀ (s : List Char) (fuel : Nat), (utf8Bytes s).length ≤ fuel →
      utf8DecodeLoop fuel (utf8Bytes s) = some s := by
  intro s
  induction s with
  | nil =>
      intro fuel _
      exact utf8DecodeLoop_nil fuel
  | cons c cs ih =>
      intro fuel h
      have hsplit : utf8Bytes (c :: cs) = utf8EncodeChar c ++ utf8Bytes cs := by
        rw [utf8Bytes, List.flatMap_cons]
        rfl
      obtain ⟨x, xs, hx⟩ : ∃ x xs, utf8EncodeChar c = x :: xs := by
        cases hc : utf8EncodeChar c with
        | nil => exact absurd hc (utf8EncodeChar_ne_nil c)
        | cons x xs => exact ⟨x, xs, rfl⟩
      have hlen : (utf8EncodeChar c).length + (utf8Bytes cs).length ≤ fuel := by
        rw [hsplit, List.length_append] at h
        omega
      have hx1 : 1 ≤ (utf8EncodeChar c).length := by
        rw [hx]
        simp
      obtain ⟨f, rfl⟩ : ∃ f, fuel = f + 1 := ⟨fuel - 1, by omega⟩
      rw [hsplit, hx, List.cons_append, utf8DecodeLoop]
      rw [← List.cons_append, ← hx, utf8DecodeStep_encodeChar]
      have hih := ih f (by omega)
      simp only [hih, Option.map_some']

theorem utf8Decode_utf8Bytes (s : List Char) : utf8Decode (utf8Bytes s) = some s :=
  utf8DecodeLoop_utf8Bytes s (utf8Bytes s).length (Nat.le_refl _)

/-! ## JSON parsing (serde_json deserializer embedding).

Whitespace handling is omitted: the serializer never emits whitespace and
no property studied here feeds whitespace-bearing input. -/

def hexVal (c : Char) : Option Nat :=
  if 48 ≤ c.toNat ∧ c.toNat ≤ 57 then some (c.toNat - 48)
  else if 97 ≤ c.toNat ∧ c.toNat ≤ 102 then some (c.toNat - 87)
  else if 65 ≤ c.toNat ∧ c.toNat ≤ 70 then some (c.toNat - 55)
  else none

def unescapeChar (e : Char) : Option Char :=
  if e = '"' then some '"'
  else if e = '\\' then some '\\'
  else if e = '/' then some '/'
  else if e = 'b' then some '\x08'
  else if e = 'f' then some '\x0c'
  else if e = 'n' then some '\n'
  else if e = 'r' then some '\r'
  else if e = 't' then some '\t'
  else none

/-- Parse the body of a JSON string literal (after the opening quote),
returning the unescaped characters and the input after the closing
quote. -/
def parseStrBody : List Char → Option (List Char × List Char)
  | [] => none
  | c :: rest =>
    if c = '"' then some ([], rest)
    else if c = '\\' then
      match rest with
      | [] => none
      | e :: rest1 =>
        if e = 'u' then
          match rest1 with
          | h1 :: h2 :: h3 :: h4 :: rest2 =>
            match hexVal h1, hexVal h2, hexVal h3, hexVal h4 with
            | some a1, some a2, some a3, some a4 =>
              (parseStrBody rest2).map
                (fun sr => (Char.ofNat (a1 * 4096 + a2 * 256 + a3 * 16 + a4) :: sr.1, sr.2))
            | _, _, _, _ => none
          | _ => none
        else
          match unescapeChar e with
          | some u => (parseStrBody rest1).map (fun sr => (u :: sr.1, sr.2))
          | none => none
    else (parseStrBody rest).map (fun sr => (c :: sr.1, sr.2))

/-- Split leading decimal digits from the input. -/
def takeDigits : List Char → List Char × List Char
  | [] => ([], [])
  | c :: rest =>
    if isDigit c then
      ((takeDigits rest).1.cons c, (takeDigits rest).2)
    else ([], c :: rest)

def parseNumBody (cs : List Char) : Option (Nat × List Char) :=
  if (takeDigits cs).1 = [] then none
  else some (digitsToNat (takeDigits cs).1, (takeDigits cs).2)

/-- The serde_json 0.x integer parser: a leading minus yields
`Value::I64` of the negated digits, otherwise the digits yield
`Value::U64` — a nonnegative number never parses back as `I64`.
Integers beyond 64 bits and floating point fall back to `F64` in the
library and are outside this embedding. -/
def parseNum : List Char → Option (JVal × List Char)
  | [] => none
  | c :: rest =>
    if c = '-' then (parseNumBody rest).map (fun nr => (JVal.i64 (-(nr.1 : Int)), nr.2))
    else (parseNumBody (c :: rest)).map (fun nr => (JVal.u64 nr.1, nr.2))

/-- Match an expected literal suffix (used for the keywords). -/
def expectLit : List Char → List Char → Option (List Char)
  | [], r => some r
  | _ :: _, [] => none
  | e :: es, c :: cs => if c = e then expectLit es cs else none

/-- Fold object members into a map in arrival order, exactly what the
`Value` deserializer does with `BTreeMap::insert`. -/
def buildMap (kvs : List (Key × JVal)) : List (Key × JVal) :=
  kvs.foldl (fun m kv => mapInsert kv.1 kv.2 m) []

mutual
def parseVal : Nat → List Char → Option (JVal × List Char)
  | 0, _ => none
  | fuel + 1, cs =>
    match cs with
    | [] => none
    | c :: rest =>
      if c = 'n' then (expectLit "ull".data rest).map (fun r => (JVal.null, r))
      else if c = 't' then (expectLit "rue".data rest).map (fun r => (JVal.bool true, r))
      else if c = 'f' then (expectLit "alse".data rest).map (fun r => (JVal.bool false, r))
      else if c = '"' then (parseStrBody rest).map (fun sr => (JVal.str sr.1, sr.2))
      else if c = '[' then
        match rest with
        | [] => none
        | d :: rest1 =>
          if d = ']' then some (JVal.arr [], rest1)
          else (parseElems fuel (d :: rest1)).map (fun er => (JVal.arr er.1, er.2))
      else if c = '{' then
        match rest with
        | [] => none
        | d :: rest1 =>
          if d = '}' then some (JVal.obj [], rest1)
          else (parseMembers fuel (d :: rest1)).map
            (fun mr => (JVal.obj (buildMap mr.1), mr.2))
      else if c = '-' ∨ isDigit c then parseNum (c :: rest)
      else none

def parseElems : Nat → List Char → Option (List JVal × List Char)
  | 0, _ => none
  | fuel + 1, cs =>
    match parseVal fuel cs with
    | none => none
    | some (v, r) =>
      match r with
      | ',' :: r1 => (parseElems fuel r1).map (fun er => (v :: er.1, er.2))
      | ']' :: r1 => some ([v], r1)
      | _ => none

def parseMembers : Nat → List Char → Option (List (Key × JVal) × List Char)
  | 0, _ => none
  | fuel + 1, cs =>
    match cs with
    | [] => none
    | c :: rest =>
      if c = '"' then
        match parseStrBody rest with
        | none => none
        | some (k, r1) =>
          match r1 with
          | ':' :: r2 =>
            match parseVal fuel r2 with
            | none => none
            | some (v, r3) =>
              match r3 with
              | ',' :: r4 => (parseMembers fuel r4).map (fun mr => ((k, v) :: mr.1, mr.2))
              | '}' :: r4 => some ([(k, v)], r4)
              | _ => none
          | _ => none
      else none
end

/-- Parse a JSON value; the input length bounds the fuel actually
needed, since every recursion step consumes input. -/
def parseJson (cs : List Char) : Option (JVal × List Char) :=
  parseVal (cs.length + 1) cs

deriving instance DecidableEq for Except

/-! ## Errors (model.rs `Error`) and errnos.

The foreign payloads of the error variants (`nix::Error`, `io::Error`,
`curl::Error`, ...) are embedded as their `Display` rendering, except
`Io`, which keeps the structured errno that io.rs branches on. -/

inductive Errno : Type where
  | EAGAIN : Errno
  | EINTR : Errno
  | other (code : Nat) : Errno
deriving DecidableEq

def Errno.display : Errno → List Char
  | .EAGAIN => "EAGAIN".data
  | .EINTR => "EINTR".data
  | .other n => "errno ".data ++ natChars n

inductive Error : Type where
  | Io (e : Errno)
  | Connect (msg : List Char)
  | SerDe (msg : List Char)
  | GetAddr (msg : List Char)
  | ParseAddr (msg : List Char)
  | ProtocolError (msg : List Char)
  | HttpError (msg : List Char)
  | StreamError (msg : List Char)
  | OtherError (msg : List Char)
deriving DecidableEq

/-- The `fmt::Display` impl in model.rs: every variant prints its inner
error/string. -/
def Error.display : Error → List Char
  | .Io e => e.display
  | .Connect s => s
  | .SerDe s => s
  | .GetAddr s => s
  | .ParseAddr s => s
  | .ProtocolError s => s
  | .HttpError s => s
  | .StreamError s => s
  | .OtherError s => s

/-! ## SonicMessage (model.rs) -/

structure SonicMessage : Type where
  e : List Char
  v : Option (List Char)
  p : Option JVal
deriving DecidableEq

namespace SonicMessage

/-- The serialized fields in declaration order, exactly as the derived
`Serialize` impl streams them: `e`, then `v` (an absent option prints as
null), then `p` (likewise). -/
def msgFields (m : SonicMessage) : List (Key × JVal) :=
  [("e".data, JVal.str m.e),
   ("v".data, match m.v with | none => JVal.null | some s => JVal.str s),
   ("p".data, match m.p with | none => JVal.null | some x => x)]

/-- `serde_json::to_string(&self).unwrap().into_bytes()`. -/
def into_bytes (m : SonicMessage) : List Nat :=
  utf8Bytes (render (.obj (msgFields m)))

/-- The derived `Deserialize` impl: requires a JSON object; `e` must be a
string and present; `v` and `p` are options, so a missing key or an
explicit null both produce `None`, and a `v` that is neither null nor a
string is a type error. -/
def msgFromValue : JVal → Except Error SonicMessage
  | .obj kvs =>
    match mapGet "e".data kvs with
    | some (.str e) =>
      match mapGet "v".data kvs with
      | none =>
        match mapGet "p".data kvs with
        | none => .ok ⟨e, none, none⟩
        | some .null => .ok ⟨e, none, none⟩
        | some x => .ok ⟨e, none, some x⟩
      | some .null =>
        match mapGet "p".data kvs with
        | none => .ok ⟨e, none, none⟩
        | some .null => .ok ⟨e, none, none⟩
        | some x => .ok ⟨e, none, some x⟩
      | some (.str s) =>
        match mapGet "p".data kvs with
        | none => .ok ⟨e, some s, none⟩
        | some .null => .ok ⟨e, some s, none⟩
        | some x => .ok ⟨e, some s, some x⟩
      | some _ => .error (.SerDe "error unmarshalling SonicMessage: invalid type for field v".data)
    | some _ => .error (.SerDe "error unmarshalling SonicMessage: invalid type for field e".data)
    | none => .error (.SerDe "error unmarshalling SonicMessage: missing field e".data)
  | _ => .error (.SerDe "error unmarshalling SonicMessage: expected object".data)

/-- `serde_json::from_slice::<SonicMessage>`: UTF-8 decode, parse one
JSON value consuming all input, extract the struct fields. -/
def from_slice (bs : List Nat) : Except Error SonicMessage :=
  match utf8Decode bs with
  | none => .error (.SerDe "error unmarshalling SonicMessage: invalid utf-8".data)
  | some cs =>
    match parseJson cs with
    | some (v, []) => msgFromValue v
    | _ => .error (.SerDe "error unmarshalling SonicMessage: syntax error".data)

def ack : SonicMessage := ⟨"A".data, none, none⟩

/-- `SonicMessage::done`: success yields value "success" and a null
payload; failure yields value "error" and a one-element array holding
the displayed error. -/
def done {α : Type} (r : Except Error α) : SonicMessage :=
  match r with
  | .ok _ => ⟨"D".data, some "success".data, some .null⟩
  | .error err => ⟨"D".data, some "error".data, some (.arr [.str err.display])⟩

end SonicMessage

/-! ## Query (model.rs) -/

structure Query : Type where
  id : Option (List Char)
  query : List Char
  trace_id : Option (List Char)
  auth : Option (List Char)
  config : JVal
deriving DecidableEq

/-- `Value::as_string`: `Some` only for a string value. -/
def jAsString : JVal → Option (List Char)
  | .str s => some s
  | _ => none

namespace Query

/-- `Query::into_msg`: a BTreeMap payload populated by inserting
`config`, then `auth` (null when absent), then `trace_id` (null when
absent). -/
def into_msg (q : Query) : SonicMessage :=
  let payload :=
    mapInsert "trace_id".data
      (match q.trace_id with | some s => JVal.str s | none => JVal.null)
      (mapInsert "auth".data
        (match q.auth with | some s => JVal.str s | none => JVal.null)
        (mapInsert "config".data q.config []))
  ⟨"Q".data, some q.query, some (.obj payload)⟩

/-- `Query::from_msg`: matches only event "Q" with a present value and
an object payload; `trace_id`/`auth` are read with `as_string` (absent
or non-string become `None`); a missing `config` is a protocol error;
any other shape is a deserialization error. -/
def from_msg (msg : SonicMessage) : Except Error Query :=
  match msg.v, msg.p with
  | some query, some (.obj payload) =>
    if msg.e = "Q".data then
      match mapGet "config".data payload with
      | some c =>
        .ok ⟨none, query,
          (mapGet "trace_id".data payload).bind jAsString,
          (mapGet "auth".data payload).bind jAsString, c⟩
      | none => .error (.ProtocolError "missing config in query message payload".data)
    else .error (.SerDe "message cannot be deserialized into a query".data)
  | _, _ => .error (.SerDe "message cannot be deserialized into a query".data)

end Query

/-! ## Syscall traces and the retrying read primitives (io.rs) -/

/-- One outcome of a call to `nix::unistd::read`: either a chunk of
delivered bytes (empty = EOF) or a failing errno. -/
inductive SysRes : Type where
  | ok (bytes : List Nat) : SysRes
  | err (e : Errno) : SysRes
deriving DecidableEq

/-- The `eagain!` macro: loop re-issuing the syscall on EAGAIN/EINTR;
return the first success, or propagate the first other error. -/
def eagainLoop : List SysRes → Option ((Except Errno (List Nat)) × List SysRes)
  | [] => none
  | .ok bs :: tr => some (.ok bs, tr)
  | .err .EAGAIN :: tr => eagainLoop tr
  | .err .EINTR :: tr => eagainLoop tr
  | .err e :: tr => some (.error e, tr)

/-- `read_next(len, fd, buf)`.  The result carries the returned count
and the final contents of `buf` (callers pre-zero it, so unwritten
positions read as 0).  On `Err` the rust caller never looks at the
buffer, so the error carries none.  Each iteration consumes at least
one trace entry, so the trace length bounds the fuel needed. -/
def read_next_loop : Nat → Nat → List SysRes → Option ((Except Errno (Nat × List Nat)) × List SysRes)
  | fuel, len, tr =>
    match eagainLoop tr with
    | none => none
    | some (.error e, tr1) => some (.error e, tr1)
    | some (.ok bs, tr1) =>
      if bs.length = len then some (.ok (bs.length, bs), tr1)
      else if bs.length > 0 then
        match fuel with
        | 0 => none
        | f + 1 =>
          match read_next_loop f (len - bs.length) tr1 with
          | none => none
          | some (.error e, tr2) => some (.error e, tr2)
          | some (.ok (r, rembuf), tr2) => some (.ok (r, bs ++ rembuf), tr2)
      else some (.ok (0, List.replicate len 0), tr1)

def read_next (len : Nat) (tr : List SysRes) :
    Option ((Except Errno (Nat × List Nat)) × List SysRes) :=
  read_next_loop tr.length len tr

/-! ## Big-endian length header (byteorder) and framing -/

/-- Big-endian 32-bit read of the first four bytes. -/
def beU32 : List Nat → Nat
  | b0 :: b1 :: b2 :: b3 :: _ => b0 * 16777216 + b1 * 65536 + b2 * 256 + b3
  | _ => 0

/-- `Cursor::read_i32::<BigEndian>`: the four header bytes as a signed
32-bit integer. -/
def beToI32 (bs : List Nat) : Int :=
  if beU32 bs < 2147483648 then (beU32 bs : Int) else (beU32 bs : Int) - 4294967296

/-- The `as usize` cast of an `i32` on a 64-bit platform: sign-extend
and reinterpret. -/
def i32AsUsize (v : Int) : Nat := (v % 18446744073709551616).toNat

/-- The `as i32` cast of a `usize`: truncate to 32 bits, two's
complement. -/
def usizeAsI32 (n : Nat) : Int :=
  if n % 4294967296 < 2147483648 then (n % 4294967296 : Int)
  else (n % 4294967296 : Int) - 4294967296

/-- `write_i32::<BigEndian>`: the four bytes of the two's complement. -/
def i32beBytes (v : Int) : List Nat :=
  [((v % 4294967296).toNat / 16777216) % 256,
   ((v % 4294967296).toNat / 65536) % 256,
   ((v % 4294967296).toNat / 256) % 256,
   (v % 4294967296).toNat % 256]

/-- `read_message(fd)`: read exactly 4 header bytes, decode them as a
big-endian i32, cast to usize, read that many bytes, deserialize.  The
counts returned by `read_next` are discarded (`try!` only propagates
errors), faithfully to the source. -/
def read_message (tr : List SysRes) : Option ((Except Error SonicMessage) × List SysRes) :=
  match read_next 4 tr with
  | none => none
  | some (.error e, tr1) => some (.error (.Io e), tr1)
  | some (.ok (_, len_buf), tr1) =>
    match read_next (i32AsUsize (beToI32 len_buf)) tr1 with
    | none => none
    | some (.error e, tr2) => some (.error (.Io e), tr2)
    | some (.ok (_, buf), tr2) => some (SonicMessage.from_slice buf, tr2)

/-- `frame(msg)`: length of the serialized bytes cast to i32, written
big-endian, followed by the serialized bytes. -/
def frame (msg : SonicMessage) : List Nat :=
  i32beBytes (usizeAsI32 msg.into_bytes.length) ++ msg.into_bytes

/-! ## Size measure (bounds the parser fuel) -/

mutual
def jSize : JVal → Nat
  | .null => 1
  | .bool _ => 1
  | .i64 _ => 1
  | .u64 _ => 1
  | .str _ => 1
  | .arr xs => 1 + jSizeList xs
  | .obj kvs => 1 + jSizeObj kvs

def jSizeList : List JVal → Nat
  | [] => 0
  | v :: vs => 1 + jSize v + jSizeList vs

def jSizeObj : List (Key × JVal) → Nat
  | [] => 0
  | (_, v) :: kvs => 1 + jSize v + jSizeObj kvs
end

/-- A tail is harmless for the greedy number scanner when it does not
begin with a digit; every continuation produced inside `render` (a
separator or a closing bracket, or the end of input) qualifies. -/
def goodTail : List Char → Bool
  | [] => true
  | c :: _ => !(isDigit c)

/-! ## Character and digit lemmas -/

theorem char_toNat_ofNat (n : Nat) (h : n < 55296) : (Char.ofNat n).toNat = n := by
  rw [Char.ofNat, dif_pos]
  · rfl
  · left
    omega

theorem digitChar_toNat (d : Nat) (h : d < 10) : (digitChar d).toNat = 48 + d := by
  rw [digitChar, char_toNat_ofNat _ (by omega)]

theorem isDigit_digitChar (d : Nat) (h : d < 10) : isDigit (digitChar d) = true := by
  rw [isDigit, digitChar_toNat d h]
  simp only [Bool.and_eq_true, decide_eq_true_eq]
  omega

theorem natCharsAux_all_digits :
    ∀ fuel n, n < fuel → ∀ c ∈ natCharsAux fuel n, isDigit c = true := by
  intro fuel
  induction fuel with
  | zero => intro n h; omega
  | succ f ih =>
      intro n h c hc
      rw [natCharsAux] at hc
      by_cases h10 : n < 10
      · rw [if_pos h10] at hc
        simp only [List.mem_singleton] at hc
        rw [hc]
        exact isDigit_digitChar n h10
      · rw [if_neg h10] at hc
        rcases List.mem_append.mp hc with h1 | h1
        · exact ih (n / 10) (by omega) c h1
        · simp only [List.mem_singleton] at h1
          rw [h1]
          exact isDigit_digitChar (n % 10) (by omega)

theorem natCharsAux_ne_nil (f : Nat) (n : Nat) : natCharsAux (f + 1) n ≠ [] := by
  rw [natCharsAux]
  by_cases h10 : n < 10
  · rw [if_pos h10]
    simp
  · rw [if_neg h10]
    simp

theorem digitsToNat_append (xs : List Char) (d : Char) :
    digitsToNat (xs ++ [d]) = digitsToNat xs * 10 + (d.toNat - 48) := by
  rw [digitsToNat, digitsToNat, List.foldl_append]
  rfl

theorem digitsToNat_natCharsAux :
    ∀ fuel n, n < fuel → digitsToNat (natCharsAux fuel n) = n := by
  intro fuel
  induction fuel with
  | zero => intro n h; omega
  | succ f ih =>
      intro n h
      rw [natCharsAux]
      by_cases h10 : n < 10
      · rw [if_pos h10, digitsToNat]
        simp only [List.foldl_cons, List.foldl_nil]
        rw [digitChar_toNat n h10]
        omega
      · rw [if_neg h10, digitsToNat_append, ih (n / 10) (by omega),
          digitChar_toNat (n % 10) (by omega)]
        omega

theorem digitsToNat_natChars (n : Nat) : digitsToNat (natChars n) = n :=
  digitsToNat_natCharsAux (n + 1) n (Nat.lt_succ_self n)

theorem natChars_all_digits (n : Nat) : ∀ c ∈ natChars n, isDigit c = true :=
  natCharsAux_all_digits (n + 1) n (Nat.lt_succ_self n)

theorem natChars_ne_nil (n : Nat) : natChars n ≠ [] := natCharsAux_ne_nil n n

theorem natChars_cons (n : Nat) :
    ∃ c cs, natChars n = c :: cs ∧ isDigit c = true := by
  cases hc : natChars n with
  | nil => exact absurd hc (natChars_ne_nil n)
  | cons c cs =>
      refine ⟨c, cs, rfl, ?_⟩
      exact natChars_all_digits n c (by rw [hc]; simp)

theorem digit_ne (c : Char) (x : Char) (hd : isDigit c = true)
    (hx : isDigit x = false) : c ≠ x := by
  intro h
  rw [h] at hd
  rw [hd] at hx
  cases hx

/-! ## Number parsing round-trip -/

theorem takeDigits_digits_append :
    ∀ (ds tail : List Char), (∀ c ∈ ds, isDigit c = true) → goodTail tail = true →
      takeDigits (ds ++ tail) = (ds, tail) := by
  intro ds
  induction ds with
  | nil =>
      intro tail _ hg
      cases tail with
      | nil => rfl
      | cons c r =>
          rw [goodTail, Bool.not_eq_true'] at hg
          rw [List.nil_append, takeDigits, if_neg (by rw [hg]; simp)]
  | cons d ds ih =>
      intro tail hd hg
      have hdig : isDigit d = true := hd d (by simp)
      rw [List.cons_append, takeDigits, if_pos hdig,
        ih tail (fun c hc => hd c (by simp [hc])) hg]

theorem parseNumBody_natChars (m : Nat) (tail : List Char) (hg : goodTail tail = true) :
    parseNumBody (natChars m ++ tail) = some (m, tail) := by
  rw [parseNumBody, takeDigits_digits_append (natChars m) tail (natChars_all_digits m) hg]
  rw [if_neg (by simp only []; exact natChars_ne_nil m)]
  rw [digitsToNat_natChars]

theorem parseNum_i64_neg (n : Int) (hneg : n < 0) (tail : List Char)
    (hg : goodTail tail = true) :
    parseNum (intChars n ++ tail) = some (.i64 n, tail) := by
  rw [intChars, if_pos hneg, List.cons_append, parseNum, if_pos rfl,
    parseNumBody_natChars _ tail hg, Option.map_some']
  have h : -(((-n).toNat : Int)) = n := by omega
  rw [h]

theorem parseNum_u64 (n : Nat) (tail : List Char) (hg : goodTail tail = true) :
    parseNum (natChars n ++ tail) = some (.u64 n, tail) := by
  obtain ⟨c, cs, hc, hdig⟩ := natChars_cons n
  rw [hc, List.cons_append, parseNum, if_neg (digit_ne c '-' hdig (by decide)),
    ← List.cons_append, ← hc, parseNumBody_natChars _ tail hg, Option.map_some']

/-! ## Keyword parsing -/

theorem expectLit_append : ∀ (pre rest : List Char), expectLit pre (pre ++ rest) = some rest := by
  intro pre
  induction pre with
  | nil => intro rest; rfl
  | cons e es ih => intro rest; rw [List.cons_append, expectLit, if_pos rfl, ih]

/-! ## String literal round-trip -/

theorem hexVal_hexDigitChar (n : Nat) (h : n < 16) : hexVal (hexDigitChar n) = some n := by
  by_cases h10 : n < 10
  · rw [hexDigitChar, if_pos h10, hexVal,
      if_pos (by rw [char_toNat_ofNat _ (by omega)]; omega)]
    rw [char_toNat_ofNat _ (by omega)]
    simp
  · rw [hexDigitChar, if_neg h10, hexVal,
      if_neg (by rw [char_toNat_ofNat _ (by omega)]; omega),
      if_pos (by rw [char_toNat_ofNat _ (by omega)]; omega)]
    rw [char_toNat_ofNat _ (by omega)]
    simp

theorem parseStrBody_escape_cons (c : Char) (mid : List Char) :
    parseStrBody (escapeChar c ++ mid) = (parseStrBody mid).map (fun sr => (c :: sr.1, sr.2)) := by
  by_cases h1 : c = '"'
  · subst h1
    rw [show escapeChar '"' = ['\\', '"'] from rfl, List.cons_append, List.cons_append,
      List.nil_append, parseStrBody.eq_def]
    simp only [if_neg (show ¬ ('\\' : Char) = '"' by decide), if_pos rfl]
    rfl
  · by_cases h2 : c = '\\'
    · subst h2
      rw [show escapeChar '\\' = ['\\', '\\'] from rfl, List.cons_append, List.cons_append,
        List.nil_append, parseStrBody.eq_def]
      simp only [if_neg (show ¬ ('\\' : Char) = '"' by decide), if_pos rfl]
      rfl
    · by_cases h3 : c = '\x08'
      · subst h3
        rw [show escapeChar '\x08' = ['\\', 'b'] from rfl, List.cons_append, List.cons_append,
          List.nil_append, parseStrBody.eq_def]
        simp only [if_neg (show ¬ ('\\' : Char) = '"' by decide), if_pos rfl]
        rfl
      · by_cases h4 : c = '\x0c'
        · subst h4
          rw [show escapeChar '\x0c' = ['\\', 'f'] from rfl, List.cons_append,
            List.cons_append, List.nil_append, parseStrBody.eq_def]
          simp only [if_neg (show ¬ ('\\' : Char) = '"' by decide), if_pos rfl]
          rfl
        · by_cases h5 : c = '\n'
          · subst h5
            rw [show escapeChar '\n' = ['\\', 'n'] from rfl, List.cons_append,
              List.cons_append, List.nil_append, parseStrBody.eq_def]
            simp only [if_neg (show ¬ ('\\' : Char) = '"' by decide), if_pos rfl]
            rfl
          · by_cases h6 : c = '\r'
            · subst h6
              rw [show escapeChar '\r' = ['\\', 'r'] from rfl, List.cons_append,
                List.cons_append, List.nil_append, parseStrBody.eq_def]
              simp only [if_neg (show ¬ ('\\' : Char) = '"' by decide), if_pos rfl]
              rfl
            · by_cases h7 : c = '\t'
              · subst h7
                rw [show escapeChar '\t' = ['\\', 't'] from rfl, List.cons_append,
                  List.cons_append, List.nil_append, parseStrBody.eq_def]
                simp only [if_neg (show ¬ ('\\' : Char) = '"' by decide), if_pos rfl]
                rfl
              · by_cases h8 : c.toNat < 0x20
                · rw [escapeChar, if_neg h1, if_neg h2, if_neg h3, if_neg h4, if_neg h5,
                    if_neg h6, if_neg h7, if_pos h8, List.cons_append, List.cons_append,
                    List.cons_append, List.cons_append, List.cons_append, List.cons_append,
                    List.nil_append, parseStrBody.eq_def]
                  simp only [if_neg (show ¬ ('\\' : Char) = '"' by decide), if_pos rfl,
                    hexVal_hexDigitChar (c.toNat / 16) (by omega),
                    hexVal_hexDigitChar (c.toNat % 16) (by omega)]
                  have harith : (Char.ofNat (0 * 4096 + 0 * 256 + c.toNat / 16 * 16 + c.toNat % 16)) = c := by
                    rw [show (0 * 4096 + 0 * 256 + c.toNat / 16 * 16 + c.toNat % 16 : Nat)
                      = c.toNat by omega, Char.ofNat_toNat]
                  rw [show hexVal '0' = some 0 from rfl]
                  simp only [harith, if_true]
                · rw [escapeChar, if_neg h1, if_neg h2, if_neg h3, if_neg h4, if_neg h5,
                    if_neg h6, if_neg h7, if_neg h8, List.cons_append, List.nil_append,
                    parseStrBody.eq_def]
                  simp only [if_neg h1, if_neg h2]

theorem parseStrBody_flatMap :
    ∀ (s rest : List Char), parseStrBody (s.flatMap escapeChar ++ '"' :: rest) = some (s, rest) := by
  intro s
  induction s with
  | nil =>
      intro rest
      rw [List.flatMap_nil, List.nil_append, parseStrBody.eq_def]
      norm_num
  | cons c cs ih =>
      intro rest
      rw [List.flatMap_cons, List.append_assoc, parseStrBody_escape_cons, ih rest,
        Option.map_some']

/-! ## Key order facts and sorted maps -/

theorem keyLt_irrefl : ∀ k, keyLt k k = false := by
  intro k
  induction k with
  | nil => rfl
  | cons c cs ih =>
      rw [keyLt, ih]
      simp

theorem keyLt_trans : ∀ a b c, keyLt a b = true → keyLt b c = true → keyLt a c = true := by
  intro a
  induction a with
  | nil =>
      intro b c hab hbc
      cases b with
      | nil => rw [keyLt] at hab; cases hab
      | cons b1 bs =>
          cases c with
          | nil => rw [keyLt] at hbc; cases hbc
          | cons c1 cs => rfl
  | cons a1 as ih =>
      intro b c hab hbc
      cases b with
      | nil => rw [keyLt] at hab; cases hab
      | cons b1 bs =>
          cases c with
          | nil => rw [keyLt] at hbc; cases hbc
          | cons c1 cs =>
              rw [keyLt] at hab hbc ⊢
              simp only [Bool.or_eq_true, Bool.and_eq_true, decide_eq_true_eq] at hab hbc ⊢
              rcases hab with hab | ⟨hab1, hab2⟩
              · rcases hbc with hbc | ⟨hbc1, hbc2⟩
                · exact Or.inl (lt_trans hab hbc)
                · exact Or.inl (hbc1 ▸ hab)
              · rcases hbc with hbc | ⟨hbc1, hbc2⟩
                · exact Or.inl (hab1 ▸ hbc)
                · exact Or.inr ⟨hab1.trans hbc1, ih bs cs hab2 hbc2⟩

theorem keyLt_asymm (a b : Key) (h : keyLt a b = true) : keyLt b a = false := by
  by_contra hc
  rw [Bool.not_eq_false] at hc
  have := keyLt_trans a b a h hc
  rw [keyLt_irrefl] at this
  cases this

theorem keyLt_ne (a b : Key) (h : keyLt a b = true) : a ≠ b := by
  intro he
  rw [he, keyLt_irrefl] at h
  cases h

theorem mapInsert_append (k : Key) (v : JVal) :
    ∀ m, (∀ p ∈ m, keyLt p.1 k = true) → mapInsert k v m = m ++ [(k, v)] := by
  intro m
  induction m with
  | nil => intro _; rfl
  | cons p m ih =>
      intro hall
      obtain ⟨k', v'⟩ := p
      have hk' : keyLt k' k = true := hall (k', v') (by simp)
      rw [mapInsert, if_neg (by rw [keyLt_asymm k' k hk']; simp),
        if_neg (Ne.symm (keyLt_ne k' k hk')), ih (fun p hp => hall p (by simp [hp]))]
      rfl

/-- Strictly increasing adjacent keys. -/
def sortedKeys : List (Key × JVal) → Bool
  | [] => true
  | [_] => true
  | (k1, _) :: (k2, v2) :: kvs => keyLt k1 k2 && sortedKeys ((k2, v2) :: kvs)

theorem sorted_head_lt (k : Key) (v : JVal) :
    ∀ kvs, sortedKeys ((k, v) :: kvs) = true → ∀ q ∈ kvs, keyLt k q.1 = true := by
  intro kvs
  induction kvs generalizing k v with
  | nil => intro _ q hq; cases hq
  | cons p rest ih =>
      intro hs q hq
      obtain ⟨k2, v2⟩ := p
      rw [sortedKeys, Bool.and_eq_true] at hs
      rcases List.mem_cons.mp hq with hq | hq
      · rw [hq]
        exact hs.1
      · exact keyLt_trans k k2 q.1 hs.1 (ih k2 v2 hs.2 q hq)

theorem sortedKeys_tail (p : Key × JVal) :
    ∀ kvs, sortedKeys (p :: kvs) = true → sortedKeys kvs = true := by
  intro kvs h
  obtain ⟨k1, v1⟩ := p
  cases kvs with
  | nil => rfl
  | cons q rest =>
      obtain ⟨k2, v2⟩ := q
      rw [sortedKeys, Bool.and_eq_true] at h
      exact h.2

theorem buildMap_foldl_sorted :
    ∀ (kvs acc : List (Key × JVal)), sortedKeys kvs = true →
      (∀ p ∈ acc, ∀ q ∈ kvs, keyLt p.1 q.1 = true) →
      List.foldl (fun m kv => mapInsert kv.1 kv.2 m) acc kvs = acc ++ kvs := by
  intro kvs
  induction kvs with
  | nil => intro acc _ _; simp
  | cons p rest ih =>
      intro acc hs hlt
      obtain ⟨k, v⟩ := p
      rw [List.foldl_cons]
      have hins : mapInsert k v acc = acc ++ [(k, v)] :=
        mapInsert_append k v acc (fun q hq => hlt q hq (k, v) (by simp))
      rw [hins, ih (acc ++ [(k, v)]) (sortedKeys_tail (k, v) rest hs) ?_, List.append_assoc]
      · rfl
      · intro q hq r hr
        rcases List.mem_append.mp hq with hq | hq
        · exact hlt q hq r (by simp [hr])
        · simp only [List.mem_singleton] at hq
          rw [hq]
          exact sorted_head_lt k v rest hs r hr

theorem buildMap_sorted (kvs : List (Key × JVal)) (hs : sortedKeys kvs = true) :
    buildMap kvs = kvs := by
  rw [buildMap, buildMap_foldl_sorted kvs [] hs (by intro p hp; cases hp)]
  rfl

/-! ## Well-formed values: every object inside is sorted (the invariant
every rust `Value` enjoys by construction, `Value::Object` being a
`BTreeMap`). -/

mutual
def wf : JVal → Bool
  | .null => true
  | .bool _ => true
  | .i64 n => decide (-9223372036854775808 ≤ n ∧ n < 0)
  | .u64 n => decide (n < 18446744073709551616)
  | .str _ => true
  | .arr xs => wfList xs
  | .obj kvs => sortedKeys kvs && wfPairs kvs

def wfList : List JVal → Bool
  | [] => true
  | v :: vs => wf v && wfList vs

def wfPairs : List (Key × JVal) → Bool
  | [] => true
  | (_, v) :: kvs => wf v && wfPairs kvs
end

/-! ## Heads of rendered values -/

theorem render_head_ne :
    ∀ v : JVal, ∃ h t, render v = h :: t ∧ h ≠ ']' ∧ h ≠ '}' := by
  intro v
  cases v with
  | null => exact ⟨'n', "ull".data, rfl, by decide, by decide⟩
  | bool b =>
      cases b with
      | true => exact ⟨'t', "rue".data, rfl, by decide, by decide⟩
      | false => exact ⟨'f', "alse".data, rfl, by decide, by decide⟩
  | i64 n =>
      by_cases hneg : n < 0
      · refine ⟨'-', natChars (-n).toNat, ?_, by decide, by decide⟩
        rw [render, intChars, if_pos hneg]
      · obtain ⟨c, cs, hc, hdig⟩ := natChars_cons n.toNat
        refine ⟨c, cs, ?_, digit_ne c ']' hdig (by decide), digit_ne c '}' hdig (by decide)⟩
        rw [render, intChars, if_neg hneg, hc]
  | u64 n =>
      obtain ⟨c, cs, hc, hdig⟩ := natChars_cons n
      refine ⟨c, cs, ?_, digit_ne c ']' hdig (by decide), digit_ne c '}' hdig (by decide)⟩
      rw [render, hc]
  | str s => exact ⟨'"', s.flatMap escapeChar ++ ['"'], rfl, by decide, by decide⟩
  | arr xs => exact ⟨'[', renderElems xs ++ [']'], rfl, by decide, by decide⟩
  | obj kvs => exact ⟨'{', renderMembers kvs ++ ['}'], rfl, by decide, by decide⟩

theorem jSize_pos : ∀ v, 1 ≤ jSize v := by
  intro v
  cases v <;> rw [jSize] <;> omega

/-! ## Render/parse round-trip -/

theorem goodTail_comma (r : List Char) : goodTail (',' :: r) = true := rfl

theorem goodTail_rbrack (r : List Char) : goodTail (']' :: r) = true := rfl

theorem goodTail_rbrace (r : List Char) : goodTail ('}' :: r) = true := rfl

theorem renderElems_head (x : JVal) (xs : List JVal) :
    ∃ h t, renderElems (x :: xs) = h :: t ∧ h ≠ ']' ∧ h ≠ '}' := by
  obtain ⟨h, t, hht, h1, h2⟩ := render_head_ne x
  cases xs with
  | nil => exact ⟨h, t, by rw [renderElems, hht], h1, h2⟩
  | cons y ys =>
      exact ⟨h, t ++ ',' :: renderElems (y :: ys),
        by rw [renderElems, hht, List.cons_append], h1, h2⟩

mutual
theorem parseVal_render : ∀ fuel v rest, jSize v ≤ fuel → wf v = true → goodTail rest = true →
    parseVal fuel (render v ++ rest) = some (v, rest)
  | 0, v, rest => by
      intro hs _ _
      have := jSize_pos v
      omega
  | fuel + 1, v, rest => by
      intro hs hw hg
      cases v with
      | null =>
          rw [show render .null = 'n' :: "ull".data from rfl, List.cons_append,
            parseVal.eq_def]
          simp only [if_true, if_pos (rfl : ('n' : Char) = 'n'), expectLit_append,
            Option.map_some']
      | bool b =>
          cases b with
          | true =>
              rw [show render (.bool true) = 't' :: "rue".data from rfl, List.cons_append,
                parseVal.eq_def]
              simp only [if_true, if_neg (show ¬ ('t' : Char) = 'n' by decide),
                if_pos (rfl : ('t' : Char) = 't'), expectLit_append, Option.map_some']
          | false =>
              rw [show render (.bool false) = 'f' :: "alse".data from rfl, List.cons_append,
                parseVal.eq_def]
              simp only [if_true, if_neg (show ¬ ('f' : Char) = 'n' by decide),
                if_neg (show ¬ ('f' : Char) = 't' by decide),
                if_pos (rfl : ('f' : Char) = 'f'), expectLit_append, Option.map_some']
      | i64 n =>
          rw [wf, decide_eq_true_eq] at hw
          have hneg : n < 0 := hw.2
          rw [render, intChars, if_pos hneg, List.cons_append, parseVal.eq_def]
          simp only [if_true, true_or, if_neg (show ¬ ('-' : Char) = 'n' by decide),
            if_neg (show ¬ ('-' : Char) = 't' by decide),
            if_neg (show ¬ ('-' : Char) = 'f' by decide),
            if_neg (show ¬ ('-' : Char) = '"' by decide),
            if_neg (show ¬ ('-' : Char) = '[' by decide),
            if_neg (show ¬ ('-' : Char) = '{' by decide),
            if_pos (Or.inl (rfl : ('-' : Char) = '-'))]
          rw [show '-' :: (natChars (-n).toNat ++ rest) = intChars n ++ rest from by
            rw [intChars, if_pos hneg, List.cons_append]]
          rw [parseNum_i64_neg n hneg rest hg]
      | u64 n =>
          obtain ⟨c, cs, hc, hdig⟩ := natChars_cons n
          rw [render, hc, List.cons_append, parseVal.eq_def]
          simp only [if_true, if_neg (digit_ne c 'n' hdig (by decide)),
            if_neg (digit_ne c 't' hdig (by decide)),
            if_neg (digit_ne c 'f' hdig (by decide)),
            if_neg (digit_ne c '"' hdig (by decide)),
            if_neg (digit_ne c '[' hdig (by decide)),
            if_neg (digit_ne c '{' hdig (by decide)),
            if_pos (Or.inr hdig)]
          rw [show c :: (cs ++ rest) = natChars n ++ rest from by
            rw [hc, List.cons_append]]
          rw [parseNum_u64 n rest hg]
      | str s =>
          rw [render, renderStr]
          simp only [List.cons_append, List.append_assoc, List.nil_append]
          rw [parseVal.eq_def]
          simp only [if_true, if_neg (show ¬ ('"' : Char) = 'n' by decide),
            if_neg (show ¬ ('"' : Char) = 't' by decide),
            if_neg (show ¬ ('"' : Char) = 'f' by decide),
            if_pos (rfl : ('"' : Char) = '"'),
            parseStrBody_flatMap, Option.map_some']
      | arr xs =>
          cases xs with
          | nil =>
              rw [show render (.arr []) ++ rest = '[' :: ']' :: rest from rfl,
                parseVal.eq_def]
              simp only [if_true, if_neg (show ¬ ('[' : Char) = 'n' by decide),
                if_neg (show ¬ ('[' : Char) = 't' by decide),
                if_neg (show ¬ ('[' : Char) = 'f' by decide),
                if_neg (show ¬ ('[' : Char) = '"' by decide),
                if_pos (rfl : ('[' : Char) = '['),
                if_pos (rfl : (']' : Char) = ']')]
          | cons x xs' =>
              obtain ⟨h, t, hht, hne1, _⟩ := renderElems_head x xs'
              rw [jSize] at hs
              rw [wf] at hw
              have hmain := parseElems_render fuel (x :: xs') rest (by omega) hw hg
                (by simp)
              rw [render]
              simp only [List.cons_append, List.append_assoc, List.nil_append]
              rw [hht, List.cons_append, parseVal.eq_def]
              simp only [if_true, if_neg (show ¬ ('[' : Char) = 'n' by decide),
                if_neg (show ¬ ('[' : Char) = 't' by decide),
                if_neg (show ¬ ('[' : Char) = 'f' by decide),
                if_neg (show ¬ ('[' : Char) = '"' by decide),
                if_pos (rfl : ('[' : Char) = '['), if_neg hne1]
              rw [← List.cons_append, ← hht, hmain, Option.map_some']
      | obj kvs =>
          cases kvs with
          | nil =>
              rw [show render (.obj []) ++ rest = '{' :: '}' :: rest from rfl,
                parseVal.eq_def]
              simp only [if_true, if_neg (show ¬ ('{' : Char) = 'n' by decide),
                if_neg (show ¬ ('{' : Char) = 't' by decide),
                if_neg (show ¬ ('{' : Char) = 'f' by decide),
                if_neg (show ¬ ('{' : Char) = '"' by decide),
                if_neg (show ¬ ('{' : Char) = '[' by decide),
                if_pos (rfl : ('{' : Char) = '{'),
                if_pos (rfl : ('}' : Char) = '}')]
          | cons kv kvs' =>
              obtain ⟨k, v0⟩ := kv
              rw [wf, Bool.and_eq_true] at hw
              rw [jSize] at hs
              have hmain := parseMembers_render fuel ((k, v0) :: kvs') rest (by omega)
                hw.2 hg (by simp)
              have hshape : ∃ t, renderMembers ((k, v0) :: kvs') = '"' :: t := by
                cases kvs' with
                | nil =>
                    refine ⟨k.flatMap escapeChar ++ '"' :: ':' :: render v0, ?_⟩
                    rw [renderMembers, renderStr]
                    simp only [List.cons_append, List.append_assoc, List.nil_append]
                | cons kv2 kvs'' =>
                    refine ⟨k.flatMap escapeChar ++ '"' :: ':' :: (render v0 ++
                      ',' :: renderMembers (kv2 :: kvs'')), ?_⟩
                    rw [renderMembers, renderStr]
                    simp only [List.cons_append, List.append_assoc, List.nil_append]
              obtain ⟨t, ht⟩ := hshape
              rw [render]
              simp only [List.cons_append, List.append_assoc, List.nil_append]
              rw [ht, List.cons_append, parseVal.eq_def]
              simp only [if_true, if_neg (show ¬ ('{' : Char) = 'n' by decide),
                if_neg (show ¬ ('{' : Char) = 't' by decide),
                if_neg (show ¬ ('{' : Char) = 'f' by decide),
                if_neg (show ¬ ('{' : Char) = '"' by decide),
                if_neg (show ¬ ('{' : Char) = '[' by decide),
                if_pos (rfl : ('{' : Char) = '{'),
                if_neg (show ¬ ('"' : Char) = '}' by decide)]
              rw [← List.cons_append, ← ht, hmain, Option.map_some',
                buildMap_sorted _ hw.1]

theorem parseElems_render : ∀ fuel xs rest, jSizeList xs ≤ fuel → wfList xs = true →
    goodTail rest = true → xs ≠ [] →
    parseElems fuel (renderElems xs ++ ']' :: rest) = some (xs, rest)
  | 0, xs, rest => by
      intro hs _ _ hne
      cases xs with
      | nil => exact absurd rfl hne
      | cons x xs' =>
          rw [jSizeList] at hs
          have := jSize_pos x
          omega
  | fuel + 1, xs, rest => by
      intro hs hwl hg hne
      cases xs with
      | nil => exact absurd rfl hne
      | cons v vs =>
          rw [jSizeList] at hs
          rw [wfList, Bool.and_eq_true] at hwl
          cases vs with
          | nil =>
              have hv := parseVal_render fuel v (']' :: rest) (by omega) hwl.1
                (goodTail_rbrack rest)
              rw [renderElems, parseElems.eq_def]
              simp only [hv]
          | cons v2 vs' =>
              have hv := parseVal_render fuel v
                (',' :: (renderElems (v2 :: vs') ++ ']' :: rest)) (by omega) hwl.1
                (goodTail_comma _)
              have hrec := parseElems_render fuel (v2 :: vs') rest (by omega) hwl.2 hg
                (by simp)
              rw [renderElems]
              simp only [List.cons_append, List.append_assoc, List.nil_append]
              rw [parseElems.eq_def]
              simp only [hv, hrec, Option.map_some']

theorem parseMembers_render : ∀ fuel kvs rest, jSizeObj kvs ≤ fuel → wfPairs kvs = true →
    goodTail rest = true → kvs ≠ [] →
    parseMembers fuel (renderMembers kvs ++ '}' :: rest) = some (kvs, rest)
  | 0, kvs, rest => by
      intro hs _ _ hne
      cases kvs with
      | nil => exact absurd rfl hne
      | cons kv kvs' =>
          obtain ⟨k, v⟩ := kv
          rw [jSizeObj] at hs
          have := jSize_pos v
          omega
  | fuel + 1, kvs, rest => by
      intro hs hwp hg hne
      cases kvs with
      | nil => exact absurd rfl hne
      | cons kv kvs' =>
          obtain ⟨k, v⟩ := kv
          rw [jSizeObj] at hs
          rw [wfPairs, Bool.and_eq_true] at hwp
          cases kvs' with
          | nil =>
              have hv := parseVal_render fuel v ('}' :: rest) (by omega) hwp.1
                (goodTail_rbrace rest)
              rw [renderMembers, renderStr]
              simp only [List.cons_append, List.append_assoc, List.nil_append]
              rw [parseMembers.eq_def]
              simp only [if_true, if_pos (rfl : ('"' : Char) = '"'),
                parseStrBody_flatMap, hv]
          | cons kv2 kvs'' =>
              have hv := parseVal_render fuel v
                (',' :: (renderMembers (kv2 :: kvs'') ++ '}' :: rest)) (by omega) hwp.1
                (goodTail_comma _)
              have hrec := parseMembers_render fuel (kv2 :: kvs'') rest (by omega) hwp.2
                hg (by simp)
              rw [renderMembers, renderStr]
              simp only [List.cons_append, List.append_assoc, List.nil_append]
              rw [parseMembers.eq_def]
              simp only [if_true, if_pos (rfl : ('"' : Char) = '"'),
                parseStrBody_flatMap, hv, hrec, Option.map_some']
end

/-! ## The input length bounds the fuel the parser needs -/

theorem render_length_pos (v : JVal) : 1 ≤ (render v).length := by
  obtain ⟨h, t, hht, _, _⟩ := render_head_ne v
  rw [hht]
  simp

mutual
theorem jSize_le_render : ∀ v : JVal, jSize v ≤ (render v).length
  | .null => by rw [jSize]; decide
  | .bool b => by
      rw [jSize]
      exact render_length_pos (.bool b)
  | .i64 n => by
      rw [jSize]
      exact render_length_pos (.i64 n)
  | .u64 n => by
      rw [jSize]
      exact render_length_pos (.u64 n)
  | .str s => by
      rw [jSize]
      exact render_length_pos (.str s)
  | .arr xs => by
      have h := jSizeList_le_renderElems xs
      rw [jSize, render]
      simp only [List.length_cons, List.length_append, List.length_singleton]
      omega
  | .obj kvs => by
      have h := jSizeObj_le_renderMembers kvs
      rw [jSize, render]
      simp only [List.length_cons, List.length_append, List.length_singleton]
      omega

theorem jSizeList_le_renderElems : ∀ xs : List JVal, jSizeList xs ≤ (renderElems xs).length + 1
  | [] => by rw [jSizeList]; omega
  | [v] => by
      have h := jSize_le_render v
      rw [jSizeList, jSizeList, renderElems]
      omega
  | v :: v2 :: vs => by
      have h1 := jSize_le_render v
      have h2 := jSizeList_le_renderElems (v2 :: vs)
      rw [jSizeList, renderElems]
      simp only [List.length_append, List.length_cons]
      omega

theorem jSizeObj_le_renderMembers :
    ∀ kvs : List (Key × JVal), jSizeObj kvs ≤ (renderMembers kvs).length + 1
  | [] => by rw [jSizeObj]; omega
  | [(k, v)] => by
      have h := jSize_le_render v
      rw [jSizeObj, jSizeObj, renderMembers]
      simp only [List.length_append, List.length_cons]
      omega
  | (k, v) :: m :: kvs => by
      have h1 := jSize_le_render v
      have h2 := jSizeObj_le_renderMembers (m :: kvs)
      rw [jSizeObj, renderMembers]
      simp only [List.length_append, List.length_cons]
      omega
end

/-- Parsing an unsorted rendered object: what the parser returns is the
member list folded through `mapInsert` (`buildMap`), with no sortedness
assumption on the input.  This is the shape needed at the top level of a
serialized struct, whose fields are streamed in declaration order. -/
theorem parseVal_render_obj (kvs : List (Key × JVal)) (fuel : Nat) (rest : List Char)
    (hne : kvs ≠ []) (hwp : wfPairs kvs = true) (hs : jSizeObj kvs + 1 ≤ fuel)
    (hg : goodTail rest = true) :
    parseVal fuel (render (.obj kvs) ++ rest) = some (.obj (buildMap kvs), rest) := by
  obtain ⟨f, rfl⟩ : ∃ f, fuel = f + 1 := ⟨fuel - 1, by omega⟩
  cases kvs with
  | nil => exact absurd rfl hne
  | cons kv kvs' =>
      obtain ⟨k, v0⟩ := kv
      have hmain := parseMembers_render f ((k, v0) :: kvs') rest (by omega) hwp hg
        (by simp)
      have hshape : ∃ t, renderMembers ((k, v0) :: kvs') = '"' :: t := by
        cases kvs' with
        | nil =>
            refine ⟨k.flatMap escapeChar ++ '"' :: ':' :: render v0, ?_⟩
            rw [renderMembers, renderStr]
            simp only [List.cons_append, List.append_assoc, List.nil_append]
        | cons kv2 kvs'' =>
            refine ⟨k.flatMap escapeChar ++ '"' :: ':' :: (render v0 ++
              ',' :: renderMembers (kv2 :: kvs'')), ?_⟩
            rw [renderMembers, renderStr]
            simp only [List.cons_append, List.append_assoc, List.nil_append]
      obtain ⟨t, ht⟩ := hshape
      rw [render]
      simp only [List.cons_append, List.append_assoc, List.nil_append]
      rw [ht, List.cons_append, parseVal.eq_def]
      simp only [if_true, if_neg (show ¬ ('{' : Char) = 'n' by decide),
        if_neg (show ¬ ('{' : Char) = 't' by decide),
        if_neg (show ¬ ('{' : Char) = 'f' by decide),
        if_neg (show ¬ ('{' : Char) = '"' by decide),
        if_neg (show ¬ ('{' : Char) = '[' by decide),
        if_pos (rfl : ('{' : Char) = '{'),
        if_neg (show ¬ ('"' : Char) = '}' by decide)]
      rw [← List.cons_append, ← ht, hmain, Option.map_some']

/-! ## Deserialize after serialize, at the message level -/

theorem buildMap_msgFields (E V P : JVal) :
    buildMap [("e".data, E), ("v".data, V), ("p".data, P)]
      = [("e".data, E), ("p".data, P), ("v".data, V)] := by
  have hv : mapInsert "v".data V [("e".data, E)] = [("e".data, E), ("v".data, V)] := by
    rw [mapInsert, if_neg (by decide), if_neg (by decide)]
    rfl
  have hp : mapInsert "p".data P [("e".data, E), ("v".data, V)]
      = [("e".data, E), ("p".data, P), ("v".data, V)] := by
    rw [mapInsert, if_neg (by decide), if_neg (by decide), mapInsert, if_pos (by decide)]
  rw [buildMap]
  simp only [List.foldl_cons, List.foldl_nil]
  rw [show mapInsert "e".data E [] = [("e".data, E)] from rfl, hv, hp]

theorem mapGet_e3 (E V P : JVal) :
    mapGet "e".data [("e".data, E), ("p".data, P), ("v".data, V)] = some E := by
  rw [mapGet, if_pos rfl]

theorem mapGet_v3 (E V P : JVal) :
    mapGet "v".data [("e".data, E), ("p".data, P), ("v".data, V)] = some V := by
  rw [mapGet, if_neg (by decide), mapGet, if_neg (by decide), mapGet, if_pos rfl]

theorem mapGet_p3 (E V P : JVal) :
    mapGet "p".data [("e".data, E), ("p".data, P), ("v".data, V)] = some P := by
  rw [mapGet, if_neg (by decide), mapGet, if_pos rfl]

/-- Deserializing the serialized bytes of a three-field message object
reduces to extracting the struct from the re-sorted member map. -/
theorem from_slice_obj3 (me : List Char) (V P : JVal)
    (hwV : wf V = true) (hwP : wf P = true) :
    SonicMessage.from_slice (utf8Bytes (render (.obj
      [("e".data, .str me), ("v".data, V), ("p".data, P)])))
    = SonicMessage.msgFromValue (.obj
      [("e".data, .str me), ("p".data, P), ("v".data, V)]) := by
  rw [SonicMessage.from_slice]
  have hwp : wfPairs [("e".data, JVal.str me), ("v".data, V), ("p".data, P)] = true := by
    rw [wfPairs, wfPairs, wfPairs, wfPairs]
    simp only [Bool.and_eq_true]
    exact ⟨rfl, hwV, hwP, trivial⟩
  have hsz : jSizeObj [("e".data, JVal.str me), ("v".data, V), ("p".data, P)] + 1
      ≤ (render (.obj [("e".data, JVal.str me), ("v".data, V), ("p".data, P)])).length
        + 1 := by
    have h1 := jSizeObj_le_renderMembers
      [("e".data, JVal.str me), ("v".data, V), ("p".data, P)]
    have h2 : (render (.obj [("e".data, JVal.str me), ("v".data, V), ("p".data, P)])).length
        = (renderMembers [("e".data, JVal.str me), ("v".data, V), ("p".data, P)]).length
          + 2 := by
      rw [render]
      simp
    omega
  have hparse := parseVal_render_obj
    [("e".data, JVal.str me), ("v".data, V), ("p".data, P)]
    ((render (.obj [("e".data, JVal.str me), ("v".data, V), ("p".data, P)])).length + 1)
    [] (by simp) hwp hsz (by decide)
  rw [List.append_nil] at hparse
  simp only [utf8Decode_utf8Bytes, parseJson, hparse, buildMap_msgFields]
  exact congrArg SonicMessage.msgFromValue
    (congrArg JVal.obj (buildMap_msgFields (JVal.str me) V P))

theorem from_slice_into_bytes (m : SonicMessage)
    (hp : ∀ x, m.p = some x → wf x = true) (hnp : m.p ≠ some .null) :
    SonicMessage.from_slice m.into_bytes = .ok m := by
  obtain ⟨me, mv, mp⟩ := m
  have hpx : ∀ x, mp = some x → wf x = true := fun x hx => hp x (by simp [hx])
  have hnpx : mp ≠ some .null := fun hx => hnp (by simp [hx])
  cases mv with
  | none =>
      cases mp with
      | none =>
          rw [show SonicMessage.into_bytes ⟨me, none, none⟩ = utf8Bytes (render (.obj
            [("e".data, .str me), ("v".data, .null), ("p".data, .null)])) from rfl,
            from_slice_obj3 me .null .null rfl rfl, SonicMessage.msgFromValue,
            mapGet_e3, mapGet_v3, mapGet_p3]
      | some x =>
          have hwx : wf x = true := hpx x rfl
          cases x with
          | null => exact absurd rfl hnpx
          | bool b =>
              rw [show SonicMessage.into_bytes ⟨me, none, some (.bool b)⟩
                = utf8Bytes (render (.obj [("e".data, .str me), ("v".data, .null),
                  ("p".data, .bool b)])) from rfl,
                from_slice_obj3 me .null (.bool b) rfl hwx, SonicMessage.msgFromValue,
                mapGet_e3, mapGet_v3, mapGet_p3]
          | i64 n =>
              rw [show SonicMessage.into_bytes ⟨me, none, some (.i64 n)⟩
                = utf8Bytes (render (.obj [("e".data, .str me), ("v".data, .null),
                  ("p".data, .i64 n)])) from rfl,
                from_slice_obj3 me .null (.i64 n) rfl hwx, SonicMessage.msgFromValue,
                mapGet_e3, mapGet_v3, mapGet_p3]
          | u64 n =>
              rw [show SonicMessage.into_bytes ⟨me, none, some (.u64 n)⟩
                = utf8Bytes (render (.obj [("e".data, .str me), ("v".data, .null),
                  ("p".data, .u64 n)])) from rfl,
                from_slice_obj3 me .null (.u64 n) rfl hwx, SonicMessage.msgFromValue,
                mapGet_e3, mapGet_v3, mapGet_p3]
          | str s2 =>
              rw [show SonicMessage.into_bytes ⟨me, none, some (.str s2)⟩
                = utf8Bytes (render (.obj [("e".data, .str me), ("v".data, .null),
                  ("p".data, .str s2)])) from rfl,
                from_slice_obj3 me .null (.str s2) rfl hwx, SonicMessage.msgFromValue,
                mapGet_e3, mapGet_v3, mapGet_p3]
          | arr xs =>
              rw [show SonicMessage.into_bytes ⟨me, none, some (.arr xs)⟩
                = utf8Bytes (render (.obj [("e".data, .str me), ("v".data, .null),
                  ("p".data, .arr xs)])) from rfl,
                from_slice_obj3 me .null (.arr xs) rfl hwx, SonicMessage.msgFromValue,
                mapGet_e3, mapGet_v3, mapGet_p3]
          | obj kvs =>
              rw [show SonicMessage.into_bytes ⟨me, none, some (.obj kvs)⟩
                = utf8Bytes (render (.obj [("e".data, .str me), ("v".data, .null),
                  ("p".data, .obj kvs)])) from rfl,
                from_slice_obj3 me .null (.obj kvs) rfl hwx, SonicMessage.msgFromValue,
                mapGet_e3, mapGet_v3, mapGet_p3]
  | some s =>
      cases mp with
      | none =>
          rw [show SonicMessage.into_bytes ⟨me, some s, none⟩ = utf8Bytes (render (.obj
            [("e".data, .str me), ("v".data, .str s), ("p".data, .null)])) from rfl,
            from_slice_obj3 me (.str s) .null rfl rfl, SonicMessage.msgFromValue,
            mapGet_e3, mapGet_v3, mapGet_p3]
      | some x =>
          have hwx : wf x = true := hpx x rfl
          cases x with
          | null => exact absurd rfl hnpx
          | bool b =>
              rw [show SonicMessage.into_bytes ⟨me, some s, some (.bool b)⟩
                = utf8Bytes (render (.obj [("e".data, .str me), ("v".data, .str s),
                  ("p".data, .bool b)])) from rfl,
                from_slice_obj3 me (.str s) (.bool b) rfl hwx, SonicMessage.msgFromValue,
                mapGet_e3, mapGet_v3, mapGet_p3]
          | i64 n =>
              rw [show SonicMessage.into_bytes ⟨me, some s, some (.i64 n)⟩
                = utf8Bytes (render (.obj [("e".data, .str me), ("v".data, .str s),
                  ("p".data, .i64 n)])) from rfl,
                from_slice_obj3 me (.str s) (.i64 n) rfl hwx, SonicMessage.msgFromValue,
                mapGet_e3, mapGet_v3, mapGet_p3]
          | u64 n =>
              rw [show SonicMessage.into_bytes ⟨me, some s, some (.u64 n)⟩
                = utf8Bytes (render (.obj [("e".data, .str me), ("v".data, .str s),
                  ("p".data, .u64 n)])) from rfl,
                from_slice_obj3 me (.str s) (.u64 n) rfl hwx, SonicMessage.msgFromValue,
                mapGet_e3, mapGet_v3, mapGet_p3]
          | str s2 =>
              rw [show SonicMessage.into_bytes ⟨me, some s, some (.str s2)⟩
                = utf8Bytes (render (.obj [("e".data, .str me), ("v".data, .str s),
                  ("p".data, .str s2)])) from rfl,
                from_slice_obj3 me (.str s) (.str s2) rfl hwx, SonicMessage.msgFromValue,
                mapGet_e3, mapGet_v3, mapGet_p3]
          | arr xs =>
              rw [show SonicMessage.into_bytes ⟨me, some s, some (.arr xs)⟩
                = utf8Bytes (render (.obj [("e".data, .str me), ("v".data, .str s),
                  ("p".data, .arr xs)])) from rfl,
                from_slice_obj3 me (.str s) (.arr xs) rfl hwx, SonicMessage.msgFromValue,
                mapGet_e3, mapGet_v3, mapGet_p3]
          | obj kvs =>
              rw [show SonicMessage.into_bytes ⟨me, some s, some (.obj kvs)⟩
                = utf8Bytes (render (.obj [("e".data, .str me), ("v".data, .str s),
                  ("p".data, .obj kvs)])) from rfl,
                from_slice_obj3 me (.str s) (.obj kvs) rfl hwx, SonicMessage.msgFromValue,
                mapGet_e3, mapGet_v3, mapGet_p3]

/-! ## Facts about the retry loop and read_next -/

theorem eagainLoop_ok (bs : List Nat) (tr : List SysRes) :
    eagainLoop (.ok bs :: tr) = some (.ok bs, tr) := rfl

theorem eagainLoop_other (n : Nat) (tr : List SysRes) :
    eagainLoop (.err (.other n) :: tr) = some (.error (.other n), tr) := rfl

theorem eagainLoop_skip :
    ∀ (pre tr : List SysRes),
      (∀ o ∈ pre, o = SysRes.err .EAGAIN ∨ o = SysRes.err .EINTR) →
      eagainLoop (pre ++ tr) = eagainLoop tr := by
  intro pre
  induction pre with
  | nil => intro tr _; rfl
  | cons o pre' ih =>
      intro tr hall
      rcases hall o (by simp) with h | h
      · rw [h, List.cons_append,
          show eagainLoop (SysRes.err .EAGAIN :: (pre' ++ tr))
            = eagainLoop (pre' ++ tr) from rfl]
        exact ih tr (fun x hx => hall x (by simp [hx]))
      · rw [h, List.cons_append,
          show eagainLoop (SysRes.err .EINTR :: (pre' ++ tr))
            = eagainLoop (pre' ++ tr) from rfl]
        exact ih tr (fun x hx => hall x (by simp [hx]))

theorem eagainLoop_no_retryable :
    ∀ (tr : List SysRes) (e : Errno) (tr' : List SysRes),
      eagainLoop tr = some (.error e, tr') → e ≠ .EAGAIN ∧ e ≠ .EINTR := by
  intro tr
  induction tr with
  | nil => intro e tr' h; cases h
  | cons o rest ih =>
      intro e tr' h
      cases o with
      | ok bs =>
          rw [eagainLoop_ok] at h
          cases h
      | err e0 =>
          cases e0 with
          | EAGAIN => exact ih e tr' h
          | EINTR => exact ih e tr' h
          | other n =>
              rw [eagainLoop_other] at h
              simp only [Option.some.injEq, Prod.mk.injEq, Except.error.injEq] at h
              obtain ⟨h1, h2⟩ := h
              rw [← h1]
              refine ⟨?_, ?_⟩
              · intro hc; cases hc
              · intro hc; cases hc

theorem read_next_loop_ok (fuel n : Nat) (bs : List Nat) (tr : List SysRes) :
    read_next_loop fuel n (.ok bs :: tr)
      = if bs.length = n then some (.ok (bs.length, bs), tr)
        else if bs.length > 0 then
          match fuel with
          | 0 => none
          | f + 1 =>
            match read_next_loop f (n - bs.length) tr with
            | none => none
            | some (.error e, tr2) => some (.error e, tr2)
            | some (.ok (r, rembuf), tr2) => some (.ok (r, bs ++ rembuf), tr2)
        else some (.ok (0, List.replicate n 0), tr) := by
  rw [read_next_loop, eagainLoop_ok]

theorem read_next_loop_full_chunks :
    ∀ (chunks : List (List Nat)) (fuel n : Nat) (hne : chunks ≠ []),
      (∀ c ∈ chunks, c ≠ []) → (chunks.map List.length).sum = n →
      chunks.length ≤ fuel + 1 →
      read_next_loop fuel n (chunks.map SysRes.ok)
        = some (.ok ((chunks.getLast hne).length, chunks.flatten), []) := by
  intro chunks
  induction chunks with
  | nil => intro fuel n hne _ _ _; exact absurd rfl hne
  | cons c cs ih =>
      intro fuel n hne hcne hsum hlen
      cases cs with
      | nil =>
          simp only [List.map_cons, List.map_nil, List.sum_cons, List.sum_nil] at hsum
          rw [List.map_cons, List.map_nil, read_next_loop_ok, if_pos (by omega)]
          have hcl : c.length = n := by omega
          simp [hcl]
      | cons c2 cs' =>
          have hcpos : 0 < c.length := by
            have := hcne c (by simp)
            cases hc : c with
            | nil => exact absurd hc this
            | cons a as => simp
          have hc2pos : 0 < c2.length := by
            have := hcne c2 (by simp)
            cases hc : c2 with
            | nil => exact absurd hc this
            | cons a as => simp
          have hsum2 : c.length + ((c2 :: cs').map List.length).sum = n := by
            simp only [List.map_cons, List.sum_cons] at hsum ⊢
            omega
          have hrestpos : 0 < ((c2 :: cs').map List.length).sum := by
            simp only [List.map_cons, List.sum_cons]
            omega
          obtain ⟨f, rfl⟩ : ∃ f, fuel = f + 1 := by
            refine ⟨fuel - 1, ?_⟩
            simp only [List.length_cons] at hlen
            omega
          rw [List.map_cons, read_next_loop_ok, if_neg (by omega), if_pos hcpos]
          have hrec := ih f (n - c.length) (by simp)
            (fun x hx => hcne x (by simp [hx])) (by omega)
            (by simp only [List.length_cons] at hlen ⊢; omega)
          simp only [hrec]
          conv_rhs => rw [List.flatten_cons,
            List.getLast_cons (show c2 :: cs' ≠ [] from by simp)]

theorem read_next_full_chunks (chunks : List (List Nat)) (n : Nat) (hne : chunks ≠ [])
    (hcne : ∀ c ∈ chunks, c ≠ []) (hsum : (chunks.map List.length).sum = n) :
    read_next n (chunks.map SysRes.ok)
      = some (.ok ((chunks.getLast hne).length, chunks.flatten), []) := by
  rw [read_next]
  exact read_next_loop_full_chunks chunks (chunks.map SysRes.ok).length n hne hcne hsum
    (by simp)

theorem read_next_loop_eof_chunks :
    ∀ (chunks : List (List Nat)) (fuel n : Nat) (tr : List SysRes),
      (∀ c ∈ chunks, c ≠ []) → (chunks.map List.length).sum < n →
      chunks.length ≤ fuel →
      read_next_loop fuel n (chunks.map SysRes.ok ++ .ok [] :: tr)
        = some (.ok (0, chunks.flatten ++
            List.replicate (n - (chunks.map List.length).sum) 0), tr) := by
  intro chunks
  induction chunks with
  | nil =>
      intro fuel n tr _ hsum _
      simp only [List.map_nil, List.sum_nil] at hsum ⊢
      rw [List.nil_append, read_next_loop_ok,
        if_neg (by simp; omega), if_neg (by simp)]
      simp
  | cons c cs ih =>
      intro fuel n tr hcne hsum hlen
      have hcpos : 0 < c.length := by
        have := hcne c (by simp)
        cases hc : c with
        | nil => exact absurd hc this
        | cons a as => simp
      have hsum2 : c.length + (cs.map List.length).sum < n := by
        simp only [List.map_cons, List.sum_cons] at hsum
        omega
      obtain ⟨f, rfl⟩ : ∃ f, fuel = f + 1 := by
        refine ⟨fuel - 1, ?_⟩
        simp only [List.length_cons] at hlen
        omega
      rw [List.map_cons, List.cons_append, read_next_loop_ok, if_neg (by omega),
        if_pos hcpos]
      have hrec := ih f (n - c.length) tr (fun x hx => hcne x (by simp [hx]))
        (by omega) (by simp only [List.length_cons] at hlen; omega)
      simp only [hrec]
      rw [List.flatten_cons, List.append_assoc]
      have harith : n - c.length - (cs.map List.length).sum
          = n - ((c :: cs).map List.length).sum := by
        simp only [List.map_cons, List.sum_cons]
        omega
      rw [harith]

theorem read_next_eof_chunks (chunks : List (List Nat)) (n : Nat) (tr : List SysRes)
    (hcne : ∀ c ∈ chunks, c ≠ []) (hsum : (chunks.map List.length).sum < n) :
    read_next n (chunks.map SysRes.ok ++ .ok [] :: tr)
      = some (.ok (0, chunks.flatten ++
          List.replicate (n - (chunks.map List.length).sum) 0), tr) := by
  rw [read_next]
  exact read_next_loop_eof_chunks chunks _ n tr hcne hsum (by simp)

/-! ## Big-endian header arithmetic -/

theorem beU32_i32beBytes (v : Int) : beU32 (i32beBytes v) = (v % 4294967296).toNat := by
  rw [i32beBytes, beU32]
  have h0 : 0 ≤ v % 4294967296 := by omega
  have h1 : v % 4294967296 < 4294967296 := by omega
  omega

theorem beToI32_i32beBytes (v : Int) (h1 : -2147483648 ≤ v) (h2 : v < 2147483648) :
    beToI32 (i32beBytes v) = v := by
  rw [beToI32, beU32_i32beBytes]
  split_ifs with h <;> omega

theorem usizeAsI32_small (n : Nat) (h : n < 2147483648) : usizeAsI32 n = (n : Int) := by
  rw [usizeAsI32, if_pos (by omega)]
  omega

theorem usizeAsI32_bounds (n : Nat) :
    -2147483648 ≤ usizeAsI32 n ∧ usizeAsI32 n < 2147483648 := by
  rw [usizeAsI32]
  split_ifs with h <;> constructor <;> omega

/-! ## ASCII byte lengths for the oversized-frame analysis -/

theorem utf8Bytes_append (a b : List Char) :
    utf8Bytes (a ++ b) = utf8Bytes a ++ utf8Bytes b := by
  rw [utf8Bytes, utf8Bytes, utf8Bytes, List.flatMap_append]

theorem escape_replicate_a (n : Nat) :
    (List.replicate n 'a').flatMap escapeChar = List.replicate n 'a' := by
  induction n with
  | zero => rfl
  | succ k ih =>
      rw [List.replicate_succ, List.flatMap_cons, ih,
        show escapeChar 'a' = ['a'] from by decide]
      rfl

theorem utf8_replicate_a (n : Nat) :
    utf8Bytes (List.replicate n 'a') = List.replicate n 97 := by
  induction n with
  | zero => rfl
  | succ k ih =>
      rw [List.replicate_succ, utf8Bytes, List.flatMap_cons,
        show utf8EncodeChar 'a' = [97] from by decide]
      rw [utf8Bytes] at ih
      rw [ih]
      rfl

/-! ## The serialized size of the oversized message -/

theorem render_mBig (N : Nat) :
    render (.obj (SonicMessage.msgFields ⟨List.replicate N 'a', none, none⟩))
      = "\x7b\"e\":\"".data ++ (List.replicate N 'a'
          ++ "\",\"v\":null,\"p\":null\x7d".data) := by
  rw [show SonicMessage.msgFields ⟨List.replicate N 'a', none, none⟩
      = [("e".data, JVal.str (List.replicate N 'a')), ("v".data, JVal.null),
         ("p".data, JVal.null)] from rfl]
  rw [render, renderMembers, renderMembers,
    show render (JVal.str (List.replicate N 'a'))
      = '"' :: ((List.replicate N 'a').flatMap escapeChar) ++ ['"'] from by
        rw [render, renderStr],
    escape_replicate_a]
  simp [renderStr, renderMembers, render, show escapeChar 'e' = ['e'] from by decide,
    show escapeChar 'v' = ['v'] from by decide, show escapeChar 'p' = ['p'] from by decide]

theorem into_bytes_mBig_length :
    (SonicMessage.into_bytes ⟨List.replicate 2147483648 'a', none, none⟩).length
      = 2147483674 := by
  rw [SonicMessage.into_bytes, render_mBig, utf8Bytes_append, utf8Bytes_append,
    utf8_replicate_a, List.length_append, List.length_append, List.length_replicate,
    show (utf8Bytes "\x7b\"e\":\"".data).length = 6 from by decide,
    show (utf8Bytes "\",\"v\":null,\"p\":null\x7d".data).length = 20 from by decide]

/-! ## Query translation facts -/

theorem from_msg_into_msg (q : Query) (t a : List Char)
    (ht : q.trace_id = some t) (ha : q.auth = some a) :
    Query.from_msg q.into_msg = .ok ⟨none, q.query, q.trace_id, q.auth, q.config⟩ := by
  obtain ⟨qid, qq, qt, qa, qc⟩ := q
  simp only at ht ha
  subst ht
  subst ha
  have hpay : Query.into_msg ⟨qid, qq, some t, some a, qc⟩
      = ⟨"Q".data, some qq, some (.obj [("auth".data, .str a), ("config".data, qc),
          ("trace_id".data, .str t)])⟩ := by
    rw [Query.into_msg]
    rw [show mapInsert "config".data qc ([] : List (Key × JVal))
        = [("config".data, qc)] from rfl]
    rw [show mapInsert "auth".data (JVal.str a) [("config".data, qc)]
        = [("auth".data, JVal.str a), ("config".data, qc)] from by
      rw [mapInsert, if_pos (by decide)]]
    rw [show mapInsert "trace_id".data (JVal.str t)
          [("auth".data, JVal.str a), ("config".data, qc)]
        = [("auth".data, JVal.str a), ("config".data, qc),
           ("trace_id".data, JVal.str t)] from by
      rw [mapInsert, if_neg (by decide), if_neg (by decide), mapInsert,
        if_neg (by decide), if_neg (by decide)]
      rfl]
  rw [hpay, Query.from_msg.eq_def]
  simp only [if_true, if_pos (rfl : "Q".data = "Q".data)]
  rw [show mapGet "config".data [("auth".data, JVal.str a), ("config".data, qc),
        ("trace_id".data, JVal.str t)] = some qc from by
    rw [mapGet, if_neg (by decide), mapGet, if_pos rfl]]
  rw [show mapGet "trace_id".data [("auth".data, JVal.str a), ("config".data, qc),
        ("trace_id".data, JVal.str t)] = some (JVal.str t) from by
    rw [mapGet, if_neg (by decide), mapGet, if_neg (by decide), mapGet, if_pos rfl]]
  rw [show mapGet "auth".data [("auth".data, JVal.str a), ("config".data, qc),
        ("trace_id".data, JVal.str t)] = some (JVal.str a) from by
    rw [mapGet, if_pos rfl]]
  rfl

/-! ## From_msg success and error-kind characterization -/

theorem from_msg_shape :
    ∀ msg : SonicMessage,
      ((∃ q, Query.from_msg msg = .ok q) ↔
        (msg.e = "Q".data ∧ msg.v.isSome = true ∧
          ∃ kvs, msg.p = some (.obj kvs) ∧ (mapGet "config".data kvs).isSome = true))
      ∧ (∀ err, Query.from_msg msg = .error err →
          (∃ s, err = .SerDe s) ∨ (∃ s, err = .ProtocolError s)) := by
  intro msg
  obtain ⟨e, v, p⟩ := msg
  cases v with
  | none =>
      constructor
      · constructor
        · rintro ⟨q, hq⟩
          rw [Query.from_msg.eq_def] at hq
          cases hq
        · rintro ⟨_, hv, _⟩
          cases hv
      · intro err herr
        rw [Query.from_msg.eq_def] at herr
        exact Or.inl ⟨_, (Except.error.inj herr).symm⟩
  | some query =>
      cases p with
      | none =>
          constructor
          · constructor
            · rintro ⟨q, hq⟩
              rw [Query.from_msg.eq_def] at hq
              cases hq
            · rintro ⟨_, _, kvs, hp, _⟩
              cases hp
          · intro err herr
            rw [Query.from_msg.eq_def] at herr
            exact Or.inl ⟨_, (Except.error.inj herr).symm⟩
      | some x =>
          cases x with
          | obj kvs =>
              by_cases he : e = "Q".data
              · subst he
                cases hc : mapGet "config".data kvs with
                | some c =>
                    constructor
                    · constructor
                      · intro _
                        exact ⟨rfl, rfl, kvs, rfl, by rw [hc]; rfl⟩
                      · intro _
                        refine ⟨⟨none, query,
                          (mapGet "trace_id".data kvs).bind jAsString,
                          (mapGet "auth".data kvs).bind jAsString, c⟩, ?_⟩
                        rw [Query.from_msg.eq_def]
                        simp only [if_pos (rfl : "Q".data = "Q".data), if_true, hc]
                    · intro err herr
                      rw [Query.from_msg.eq_def] at herr
                      simp only [if_pos (rfl : "Q".data = "Q".data), if_true, hc]
                        at herr
                      cases herr
                | none =>
                    constructor
                    · constructor
                      · rintro ⟨q, hq⟩
                        rw [Query.from_msg.eq_def] at hq
                        simp only [if_pos (rfl : "Q".data = "Q".data), if_true, hc]
                          at hq
                        cases hq
                      · rintro ⟨_, _, kvs', hp, hcs⟩
                        injection hp with hp1
                        injection hp1 with hp2
                        rw [← hp2, hc] at hcs
                        cases hcs
                    · intro err herr
                      rw [Query.from_msg.eq_def] at herr
                      simp only [if_pos (rfl : "Q".data = "Q".data), if_true, hc]
                        at herr
                      exact Or.inr ⟨_, (Except.error.inj herr).symm⟩
              · constructor
                · constructor
                  · rintro ⟨q, hq⟩
                    rw [Query.from_msg.eq_def] at hq
                    simp only [if_neg he] at hq
                    cases hq
                  · rintro ⟨he', _, _⟩
                    exact absurd he' he
                · intro err herr
                  rw [Query.from_msg.eq_def] at herr
                  simp only [if_neg he] at herr
                  exact Or.inl ⟨_, (Except.error.inj herr).symm⟩
          | null =>
              refine ⟨⟨?_, ?_⟩, ?_⟩
              · rintro ⟨q, hq⟩
                rw [Query.from_msg.eq_def] at hq
                cases hq
              · rintro ⟨_, _, kvs, hp, _⟩
                injection hp with hp1
                cases hp1
              · intro err herr
                rw [Query.from_msg.eq_def] at herr
                exact Or.inl ⟨_, (Except.error.inj herr).symm⟩
          | bool b =>
              refine ⟨⟨?_, ?_⟩, ?_⟩
              · rintro ⟨q, hq⟩
                rw [Query.from_msg.eq_def] at hq
                cases hq
              · rintro ⟨_, _, kvs, hp, _⟩
                injection hp with hp1
                cases hp1
              · intro err herr
                rw [Query.from_msg.eq_def] at herr
                exact Or.inl ⟨_, (Except.error.inj herr).symm⟩
          | i64 n =>
              refine ⟨⟨?_, ?_⟩, ?_⟩
              · rintro ⟨q, hq⟩
                rw [Query.from_msg.eq_def] at hq
                cases hq
              · rintro ⟨_, _, kvs, hp, _⟩
                injection hp with hp1
                cases hp1
              · intro err herr
                rw [Query.from_msg.eq_def] at herr
                exact Or.inl ⟨_, (Except.error.inj herr).symm⟩
          | u64 n =>
              refine ⟨⟨?_, ?_⟩, ?_⟩
              · rintro ⟨q, hq⟩
                rw [Query.from_msg.eq_def] at hq
                cases hq
              · rintro ⟨_, _, kvs, hp, _⟩
                injection hp with hp1
                cases hp1
              · intro err herr
                rw [Query.from_msg.eq_def] at herr
                exact Or.inl ⟨_, (Except.error.inj herr).symm⟩
          | str s =>
              refine ⟨⟨?_, ?_⟩, ?_⟩
              · rintro ⟨q, hq⟩
                rw [Query.from_msg.eq_def] at hq
                cases hq
              · rintro ⟨_, _, kvs, hp, _⟩
                injection hp with hp1
                cases hp1
              · intro err herr
                rw [Query.from_msg.eq_def] at herr
                exact Or.inl ⟨_, (Except.error.inj herr).symm⟩
          | arr xs =>
              refine ⟨⟨?_, ?_⟩, ?_⟩
              · rintro ⟨q, hq⟩
                rw [Query.from_msg.eq_def] at hq
                cases hq
              · rintro ⟨_, _, kvs, hp, _⟩
                injection hp with hp1
                cases hp1
              · intro err herr
                rw [Query.from_msg.eq_def] at herr
                exact Or.inl ⟨_, (Except.error.inj herr).symm⟩

/-! ## Error kinds reachable from read_message -/

theorem msgFromValue_error_serde (v : JVal) (err : Error)
    (h : SonicMessage.msgFromValue v = .error err) : ∃ s, err = .SerDe s := by
  rw [SonicMessage.msgFromValue.eq_def] at h
  repeat' split at h
  all_goals first
    | exact ⟨_, (Except.error.inj h).symm⟩
    | cases h

theorem from_slice_error_serde (bs : List Nat) (err : Error)
    (h : SonicMessage.from_slice bs = .error err) : ∃ s, err = .SerDe s := by
  rw [SonicMessage.from_slice] at h
  repeat' split at h
  all_goals first
    | exact ⟨_, (Except.error.inj h).symm⟩
    | exact msgFromValue_error_serde _ _ h

theorem read_message_errors (tr : List SysRes) (res : Error) (tr' : List SysRes)
    (h : read_message tr = some (.error res, tr')) :
    (∃ e, res = .Io e) ∨ (∃ s, res = .SerDe s) := by
  rw [read_message] at h
  split at h
  · cases h
  · simp only [Option.some.injEq, Prod.mk.injEq] at h
    exact Or.inl ⟨_, (Except.error.inj h.1).symm⟩
  · split at h
    · cases h
    · simp only [Option.some.injEq, Prod.mk.injEq] at h
      exact Or.inl ⟨_, (Except.error.inj h.1).symm⟩
    · simp only [Option.some.injEq, Prod.mk.injEq] at h
      exact Or.inr (from_slice_error_serde _ _ h.1)

theorem read_next_loop_err (fuel n k : Nat) (tr : List SysRes) :
    read_next_loop fuel n (.err (.other k) :: tr) = some (.error (.other k), tr) := by
  rw [read_next_loop, eagainLoop_other]

theorem read_message_err_second (hdr : List Nat) (k : Nat) (rest : List SysRes)
    (h4 : hdr.length = 4) :
    read_message (SysRes.ok hdr :: SysRes.err (.other k) :: rest)
      = some (.error (.Io (.other k)), rest) := by
  have h1 : read_next 4 (SysRes.ok hdr :: SysRes.err (.other k) :: rest)
      = some (.ok (hdr.length, hdr), SysRes.err (.other k) :: rest) := by
    rw [read_next, read_next_loop_ok, if_pos h4]
  have h2 : read_next (i32AsUsize (beToI32 hdr)) (SysRes.err (.other k) :: rest)
      = some (.error (.other k), rest) := by
    rw [read_next, read_next_loop_err]
  rw [read_message]
  simp only [h1, h2]

/-! # Claim theorems -/

/-- C1 (counterexample): with the requested length 2 delivered in two
chunks of one byte each, `read_next` returns `Ok(1)` — the size of the
final chunk — not the requested length 2: the recursive call's count is
returned unchanged, discarding earlier progress. -/
theorem claim_C1_counterexample :
    read_next 2 [SysRes.ok [7], SysRes.ok [9]] = some (.ok (1, [7, 9]), [])
    ∧ (1 : Nat) ≠ 2 :=
  ⟨by decide, by decide⟩

/-- C1 (amended): when a source delivers exactly the requested `n` bytes
split into one or more non-empty chunks, `read_next` returns `Ok` and
its buffer holds all `n` bytes, but the returned count is the length of
the *final* chunk — which equals `n` exactly when the data arrives in a
single read. -/
theorem claim_C1 :
    ∀ (n : Nat) (chunks : List (List Nat)) (hne : chunks ≠ []),
      (∀ c ∈ chunks, c ≠ []) → (chunks.map List.length).sum = n →
      read_next n (chunks.map SysRes.ok)
        = some (.ok ((chunks.getLast hne).length, chunks.flatten), []) :=
  fun n chunks hne hc hs => read_next_full_chunks chunks n hne hc hs

/-- Witness for C1 at a concrete split 3 = 1 + 2: the result count is
the final chunk's size 2, and the buffer carries all three bytes. -/
theorem claim_C1_witness :
    read_next 3 ([[1], [2, 3]].map SysRes.ok)
      = some (.ok ((([[1], [2, 3]] : List (List Nat)).getLast (by decide)).length,
          ([[1], [2, 3]] : List (List Nat)).flatten), []) :=
  claim_C1 3 [[1], [2, 3]] (by decide) (by decide) (by decide)

/-- C2 (code bug): on a peer that closed with no bytes available, the
first read returns 0 bytes and `read_next` dutifully reports the clean
EOF as `Ok(0)` with the header buffer still zeroed — but `read_message`
ignores the count, decodes the zero header as length 0, and hands the
empty payload to the deserializer, surfacing the clean close as a
`SerDe` error instead of a clean "no more messages" signal. -/
theorem claim_C2 :
    read_next 4 [SysRes.ok []] = some (.ok (0, [0, 0, 0, 0]), [])
    ∧ ∃ s, read_message [SysRes.ok [], SysRes.ok []]
        = some (.error (.SerDe s), []) :=
  ⟨by decide, ⟨_, rfl⟩⟩

/-- C3 (counterexample): a source that delivers one byte and then
closes makes `read_next` return `Ok(0)` even though a byte was
produced: the recursive call hits EOF and its `Ok(0)` is propagated
verbatim. -/
theorem claim_C3_counterexample :
    read_next 2 [SysRes.ok [7], SysRes.ok []] = some (.ok (0, [7, 0]), [])
    ∧ ([7] : List Nat) ≠ [] :=
  ⟨by decide, by decide⟩

/-- C3 (amended): `read_next` returns `Ok(0)` whenever a read returns 0
bytes (EOF) before the request is satisfied — after zero bytes of
progress, but equally after partial progress, the unfilled remainder of
the buffer staying zeroed. -/
theorem claim_C3 :
    ∀ (n : Nat) (chunks : List (List Nat)) (tr : List SysRes),
      (∀ c ∈ chunks, c ≠ []) → (chunks.map List.length).sum < n →
      read_next n (chunks.map SysRes.ok ++ SysRes.ok [] :: tr)
        = some (.ok (0, chunks.flatten ++
            List.replicate (n - (chunks.map List.length).sum) 0), tr) :=
  fun n chunks tr hc hs => read_next_eof_chunks chunks n tr hc hs

/-- Witness for C3: EOF after one delivered byte out of four requested
returns `Ok(0)` with the rest of the buffer zeroed. -/
theorem claim_C3_witness :
    read_next 4 ([[5]].map SysRes.ok ++ SysRes.ok [] :: [])
      = some (.ok (0, ([[5]] : List (List Nat)).flatten ++
          List.replicate (4 - (([[5]] : List (List Nat)).map List.length).sum) 0), []) :=
  claim_C3 4 [[5]] [] (by decide) (by decide)

/-- C6: the `eagain!` macro model retries past any prefix of
EAGAIN/EINTR failures without consuming anything else, passes the first
success through, propagates the first error of any other kind
immediately, and never lets EAGAIN or EINTR escape as a result. -/
theorem claim_C6 :
    (∀ (pre tr : List SysRes),
        (∀ o ∈ pre, o = SysRes.err .EAGAIN ∨ o = SysRes.err .EINTR) →
        eagainLoop (pre ++ tr) = eagainLoop tr)
    ∧ (∀ (bs : List Nat) (tr : List SysRes),
        eagainLoop (SysRes.ok bs :: tr) = some (.ok bs, tr))
    ∧ (∀ (k : Nat) (tr : List SysRes),
        eagainLoop (SysRes.err (.other k) :: tr) = some (.error (.other k), tr))
    ∧ (∀ (tr : List SysRes) (e : Errno) (tr' : List SysRes),
        eagainLoop tr = some (.error e, tr') → e ≠ .EAGAIN ∧ e ≠ .EINTR) :=
  ⟨eagainLoop_skip, fun bs tr => eagainLoop_ok bs tr,
   fun k tr => eagainLoop_other k tr, eagainLoop_no_retryable⟩

/-- Witness for C6: two retryable failures are skipped transparently; a
non-retryable errno surfaces immediately and is neither EAGAIN nor
EINTR. -/
theorem claim_C6_witness :
    eagainLoop ([SysRes.err .EAGAIN, SysRes.err .EINTR] ++ [SysRes.ok [1]])
      = eagainLoop [SysRes.ok [1]]
    ∧ eagainLoop [SysRes.err (.other 13), SysRes.ok [2]]
        = some (.error (.other 13), [SysRes.ok [2]])
    ∧ (Errno.other 13 ≠ .EAGAIN ∧ Errno.other 13 ≠ .EINTR) :=
  ⟨claim_C6.1 [SysRes.err .EAGAIN, SysRes.err .EINTR] [SysRes.ok [1]] (by decide),
   claim_C6.2.2.1 13 [SysRes.ok [2]],
   claim_C6.2.2.2 [SysRes.err (.other 13), SysRes.ok [2]] (.other 13) [SysRes.ok [2]]
     (claim_C6.2.2.1 13 [SysRes.ok [2]])⟩

/-- C4 (counterexample): two distinct payloads break the unrestricted
round trip. First, the message produced by `done(Ok(_))` carries
`p = Some(Value::Null)`, which serializes to `"p":null` and
deserializes back to `p = None`. Second, a nonnegative `Value::I64`
payload such as `I64(5)` renders as the digits `5`, which serde_json
0.x's parser reads back as `U64(5)` — a different variant, unequal
under the derived `PartialEq`.  So decode(encode(m)) differs from `m`
at both payloads. -/
theorem claim_C4_counterexample :
    (SonicMessage.from_slice
        (SonicMessage.into_bytes ⟨"D".data, some "success".data, some .null⟩)
      = .ok ⟨"D".data, some "success".data, none⟩
    ∧ (⟨"D".data, some "success".data, none⟩ : SonicMessage)
        ≠ ⟨"D".data, some "success".data, some .null⟩)
    ∧ (SonicMessage.from_slice
        (SonicMessage.into_bytes ⟨"D".data, none, some (.i64 5)⟩)
      = .ok ⟨"D".data, none, some (.u64 5)⟩
    ∧ JVal.u64 5 ≠ JVal.i64 5) :=
  ⟨⟨by decide, by decide⟩, ⟨by decide, by decide⟩⟩

/-- C4 (amended): decode inverts encode for every message whose payload
value is canonical for serde_json 0.x — every object inside sorted with
unique keys (the invariant every `BTreeMap`-backed rust `Value`
enjoys), every `U64` below 2^64, every `I64` negative and at least
-2^63 (the parser reads any nonnegative integer as `U64`, so a
nonnegative `I64` comes back as the other variant), and no floating
point (`F64` such as NaN serializes to `null`, collapsing the payload
to `None`, and is excluded from the embedding) — and whose payload is
not `Some(Value::Null)`, the one shape JSON cannot represent distinctly
from `None`. -/
theorem claim_C4 :
    ∀ m : SonicMessage, (∀ x, m.p = some x → wf x = true) → m.p ≠ some .null →
      SonicMessage.from_slice m.into_bytes = .ok m :=
  from_slice_into_bytes

/-- Witness for C4 at a query-like message with a one-key object
payload holding a `U64`. -/
theorem claim_C4_witness :
    SonicMessage.from_slice
        (SonicMessage.into_bytes ⟨"Q".data, some "q".data, some (.obj [("a".data, .u64 1)])⟩)
      = .ok ⟨"Q".data, some "q".data, some (.obj [("a".data, .u64 1)])⟩ :=
  claim_C4 ⟨"Q".data, some "q".data, some (.obj [("a".data, .u64 1)])⟩
    (fun x hx => by
      injection hx with h
      rw [← h]
      decide)
    (by decide)

/-- The message whose serialized payload exceeds the `i32` range. -/
def msgBig : SonicMessage := ⟨List.replicate 2147483648 'a', none, none⟩

/-- C5 (counterexample): for a message whose JSON payload is
2147483674 bytes long, the `usize as i32` cast wraps and the 4-byte
header no longer equals the payload length. -/
theorem claim_C5_counterexample :
    beToI32 ((frame msgBig).take 4) ≠ ((msgBig.into_bytes).length : Int) := by
  have hlen : msgBig.into_bytes.length = 2147483674 := into_bytes_mBig_length
  have h4 : (i32beBytes (usizeAsI32 msgBig.into_bytes.length)).length = 4 := rfl
  rw [frame, ← h4, List.take_left,
    beToI32_i32beBytes _ (usizeAsI32_bounds _).1 (usizeAsI32_bounds _).2, hlen]
  rw [show usizeAsI32 2147483674 = -2147483622 from by decide]
  decide

/-- C5 (amended): for every message whose serialized payload is shorter
than 2^31 bytes, `frame` is exactly a 4-byte big-endian signed header
decoding to the payload's byte length, followed by the payload and
nothing else. -/
theorem claim_C5 :
    ∀ m : SonicMessage, m.into_bytes.length < 2147483648 →
      beToI32 ((frame m).take 4) = (m.into_bytes.length : Int)
      ∧ (frame m).drop 4 = m.into_bytes
      ∧ (frame m).length = 4 + m.into_bytes.length := by
  intro m h
  have h4 : (i32beBytes (usizeAsI32 m.into_bytes.length)).length = 4 := rfl
  refine ⟨?_, ?_, ?_⟩
  · rw [frame, ← h4, List.take_left,
      beToI32_i32beBytes _ (usizeAsI32_bounds _).1 (usizeAsI32_bounds _).2,
      usizeAsI32_small _ h]
  · rw [frame, ← h4, List.drop_left]
  · rw [frame, List.length_append, h4]

/-- Witness for C5 at the ack message. -/
theorem claim_C5_witness :
    beToI32 ((frame SonicMessage.ack).take 4)
        = ((SonicMessage.ack.into_bytes).length : Int)
    ∧ (frame SonicMessage.ack).drop 4 = SonicMessage.ack.into_bytes
    ∧ (frame SonicMessage.ack).length = 4 + SonicMessage.ack.into_bytes.length :=
  claim_C5 SonicMessage.ack (by decide)

theorem done_error_render (α : Type) (err : Error) :
    render (.obj (SonicMessage.msgFields (@SonicMessage.done α (.error err))))
      = "\x7b\"e\":\"D\",\"v\":\"error\",\"p\":[".data
        ++ (renderStr err.display ++ "]\x7d".data) := by
  rw [show SonicMessage.msgFields (@SonicMessage.done α (.error err))
      = [("e".data, JVal.str "D".data), ("v".data, JVal.str "error".data),
         ("p".data, JVal.arr [JVal.str err.display])] from rfl]
  rw [render, renderMembers, renderMembers]
  simp [renderStr, renderMembers, renderElems, render,
    show "D".data.flatMap escapeChar = "D".data from by decide,
    show "error".data.flatMap escapeChar = "error".data from by decide,
    show escapeChar 'e' = ['e'] from by decide,
    show escapeChar 'v' = ['v'] from by decide,
    show escapeChar 'p' = ['p'] from by decide]

/-- C7: `done(Ok(x))` yields, for any `x`, the message serializing to
exactly the JSON text with event "D", value "success", payload null;
`done(Err(err))` yields the message whose payload is the one-element
array holding the displayed error — an array, never a bare string —
serializing to the corresponding JSON text. -/
theorem claim_C7 :
    ∀ (α : Type) (x : α) (err : Error),
      SonicMessage.done (.ok x) = ⟨"D".data, some "success".data, some .null⟩
      ∧ SonicMessage.into_bytes (SonicMessage.done (.ok x))
          = utf8Bytes "\x7b\"e\":\"D\",\"v\":\"success\",\"p\":null\x7d".data
      ∧ @SonicMessage.done α (.error err)
          = ⟨"D".data, some "error".data, some (.arr [.str err.display])⟩
      ∧ SonicMessage.into_bytes (@SonicMessage.done α (.error err))
          = utf8Bytes ("\x7b\"e\":\"D\",\"v\":\"error\",\"p\":[".data
              ++ (renderStr err.display ++ "]\x7d".data)) := by
  intro α x err
  refine ⟨rfl, ?_, rfl, ?_⟩
  · rw [show SonicMessage.done (.ok x)
        = (⟨"D".data, some "success".data, some JVal.null⟩ : SonicMessage) from rfl]
    decide
  · rw [SonicMessage.into_bytes, done_error_render α err]

/-- C8: a query with non-null trace id and auth token survives the trip
through its wire message: every field but the transient `id` (which is
never serialized and comes back `None`) is recovered exactly. -/
theorem claim_C8 :
    ∀ (q : Query) (t a : List Char), q.trace_id = some t → q.auth = some a →
      Query.from_msg q.into_msg = .ok ⟨none, q.query, q.trace_id, q.auth, q.config⟩ :=
  from_msg_into_msg

/-- Witness for C8 at a concrete query. -/
theorem claim_C8_witness :
    Query.from_msg
        (Query.into_msg ⟨some "i".data, "sel".data, some "t".data, some "a".data, .obj []⟩)
      = .ok ⟨none, "sel".data, some "t".data, some "a".data, .obj []⟩ :=
  claim_C8 ⟨some "i".data, "sel".data, some "t".data, some "a".data, .obj []⟩
    "t".data "a".data rfl rfl

/-- C9: `Query::from_msg` succeeds exactly on messages with event "Q",
a present value, and an object payload containing a "config" key; on
any other shape it fails, and every failure is a deserialization
(`SerDe`) or protocol (`ProtocolError`) error. -/
theorem claim_C9 :
    ∀ msg : SonicMessage,
      ((∃ q, Query.from_msg msg = .ok q) ↔
        (msg.e = "Q".data ∧ msg.v.isSome = true ∧
          ∃ kvs, msg.p = some (.obj kvs) ∧ (mapGet "config".data kvs).isSome = true))
      ∧ (∀ err, Query.from_msg msg = .error err →
          (∃ s, err = .SerDe s) ∨ (∃ s, err = .ProtocolError s)) :=
  from_msg_shape

/-- Witness for C9: a well-shaped message deserializes; the ack message
(wrong shape) fails with a SerDe or protocol error. -/
theorem claim_C9_witness :
    (∃ q, Query.from_msg ⟨"Q".data, some "s".data, some (.obj [("config".data, .null)])⟩
        = .ok q)
    ∧ ((∃ s, Error.SerDe "message cannot be deserialized into a query".data = .SerDe s)
        ∨ (∃ s, Error.SerDe "message cannot be deserialized into a query".data
            = .ProtocolError s)) :=
  ⟨(claim_C9 ⟨"Q".data, some "s".data, some (.obj [("config".data, .null)])⟩).1.mpr
      ⟨by decide, by decide, [("config".data, .null)], by decide, by decide⟩,
   (claim_C9 SonicMessage.ack).2
     (Error.SerDe "message cannot be deserialized into a query".data) rfl⟩

/-- C10: `read_message` never rejects a frame as a protocol error — its
only failures are I/O and deserialization errors; a 4-byte header
decoding to a negative i32 is cast to a usize of at least 2^63 and the
subsequent read of that size is attempted (an error supplied for that
read surfaces as the result). -/
theorem claim_C10 :
    (∀ (tr : List SysRes) (res : Error) (tr' : List SysRes),
        read_message tr = some (.error res, tr') → ∀ s, res ≠ .ProtocolError s)
    ∧ (∀ hdr : List Nat, beToI32 hdr < 0 →
        9223372036854775808 ≤ i32AsUsize (beToI32 hdr))
    ∧ (∀ (hdr : List Nat) (k : Nat) (rest : List SysRes), hdr.length = 4 →
        read_message (SysRes.ok hdr :: SysRes.err (.other k) :: rest)
          = some (.error (.Io (.other k)), rest)) := by
  refine ⟨?_, ?_, ?_⟩
  · intro tr res tr' h s
    rcases read_message_errors tr res tr' h with ⟨e, he⟩ | ⟨s', hs⟩
    · rw [he]
      intro hc
      cases hc
    · rw [hs]
      intro hc
      cases hc
  · intro hdr h
    rw [beToI32] at h ⊢
    rw [i32AsUsize]
    split_ifs at h ⊢ with h1
    · omega
    · omega
  · intro hdr k rest h4
    exact read_message_err_second hdr k rest h4

/-- Witness for C10: the all-ones header decodes to -1, casts to
2^64 - 1, and the read of that size is attempted — its injected errno
comes back as the I/O error, not a protocol error. -/
theorem claim_C10_witness :
    9223372036854775808 ≤ i32AsUsize (beToI32 [255, 255, 255, 255])
    ∧ read_message [SysRes.ok [255, 255, 255, 255], SysRes.err (.other 9)]
        = some (.error (.Io (.other 9)), [])
    ∧ (Error.Io (.other 9) ≠ Error.ProtocolError "x".data) :=
  ⟨claim_C10.2.1 [255, 255, 255, 255] (by decide),
   claim_C10.2.2 [255, 255, 255, 255] 9 [] (by decide),
   claim_C10.1 [SysRes.ok [255, 255, 255, 255], SysRes.err (.other 9)]
     (Error.Io (.other 9)) []
     (claim_C10.2.2 [255, 255, 255, 255] 9 [] (by decide)) "x".data⟩
